import Mathlib

/-!
Verification development for a multi-round auction engine (TypeScript source).

The TypeScript services are shallowly embedded as pure Lean functions:

* money amounts (JS `number` used as decimal currency) are modelled as `Rat`;
* timestamps (JS `Date` / epoch milliseconds) are modelled as `Int` (ms);
* MongoDB documents are records; each collection is a `List` inside `DB`;
* a MongoDB transaction (`session.startTransaction` / `commitTransaction` /
  `abortTransaction`) is modelled by `Except Err DB`: an `.error` result
  commits nothing;
* `document.save()` validation (schema `min:` bounds and `pre('save')`
  hooks) is modelled by the `userSave` / `roundSave` functions;
* MongoDB `.sort({amount: -1, createdAt: 1})` is modelled by
  `List.insertionSort bidOrder`, a sort by exactly that key.
-/
unseal Rat.sub Rat.add Rat.mul Rat.inv

/-- Error kinds, mirroring the error classes of `src/utils/errors.ts`.
`validation` also stands for mongoose schema-validation failures on save. -/
inductive Err where
  | notFound
  | conflict
  | validation
  | insufficientFunds
  | auctionNotActive
  | roundNotActive
  | bidTooLow
  | internal
  deriving DecidableEq, Repr

/-- `AUCTION_STATUSES` from `src/config/constants.ts`. -/
inductive AuctionStatus where
  | scheduled
  | active
  | paused
  | completed
  | cancelled
  deriving DecidableEq, Repr

/-- `ROUND_STATUSES` from `src/config/constants.ts`. -/
inductive RoundStatus where
  | scheduled
  | active
  | completed
  deriving DecidableEq, Repr

/-- `BID_STATUSES` from `src/config/constants.ts`. -/
inductive BidStatus where
  | active
  | won
  | outbid
  | refunded
  | carried_over
  deriving DecidableEq, Repr

/-- `TRANSACTION_TYPES` from `src/config/constants.ts`. -/
inductive TxType where
  | deposit
  | withdrawal
  | bid_placed
  | bid_increased
  | bid_won
  | bid_refunded
  | admin_adjustment
  deriving DecidableEq, Repr

/-- Bid history actions, from the `enum` of `bidHistoryEntrySchema` in the
Bid model. -/
inductive HistoryAction where
  | created
  | increased
  | carried_over
  | won
  | refunded
  deriving DecidableEq, Repr

/-- One entry of `bid.history` (`IBidHistoryEntry`). -/
structure HistoryEntry where
  action : HistoryAction
  amount : Rat
  round : Nat
  timestamp : Int
  previousAmount : Option Rat
  deriving DecidableEq, Repr

/-- The `User` document (`src/models/User.ts`). -/
structure User where
  id : Nat
  balance : Rat
  reservedBalance : Rat
  totalBids : Nat
  totalWins : Nat
  totalSpent : Rat
  deriving DecidableEq, Repr

/-- The `Auction` document (model in `src/models`). -/
structure Auction where
  id : Nat
  totalItems : Nat
  itemsPerRound : Nat
  roundDuration : Nat
  antiSnipeWindow : Nat
  antiSnipeExtension : Nat
  maxExtensions : Option Nat
  minBid : Rat
  minBidStep : Rat
  status : AuctionStatus
  currentRound : Nat
  totalRounds : Nat
  deriving DecidableEq, Repr

/-- The `Round` document (model in `src/models`). -/
structure Round where
  id : Nat
  auctionId : Nat
  roundNumber : Nat
  itemsInRound : Nat
  scheduledStartTime : Int
  actualStartTime : Option Int
  scheduledEndTime : Int
  actualEndTime : Option Int
  extensionsCount : Nat
  lastExtensionAt : Option Int
  status : RoundStatus
  winnersProcessed : Bool
  deriving DecidableEq, Repr

/-- The `Bid` document (model in `src/models`). -/
structure Bid where
  id : Nat
  auctionId : Nat
  userId : Nat
  amount : Rat
  originalAmount : Rat
  createdInRound : Nat
  currentRound : Nat
  status : BidStatus
  wonItemNumber : Option Nat
  wonInRound : Option Nat
  wonPosition : Option Nat
  history : List HistoryEntry
  createdAt : Int
  deriving DecidableEq, Repr

/-- The append-only `Transaction` document (model in `src/models`). -/
structure TxRecord where
  userId : Nat
  type : TxType
  amount : Rat
  auctionId : Option Nat
  bidId : Option Nat
  balanceBefore : Rat
  balanceAfter : Rat
  deriving DecidableEq, Repr

/-- The `WonItem` document (model in `src/models`). -/
structure WonItem where
  auctionId : Nat
  userId : Nat
  bidId : Nat
  itemNumber : Nat
  roundNumber : Nat
  positionInRound : Nat
  winningBidAmount : Rat
  deriving DecidableEq, Repr

/-- The document store: one list per collection. -/
structure DB where
  users : List User
  auctions : List Auction
  rounds : List Round
  bids : List Bid
  txs : List TxRecord
  wonItems : List WonItem
  deriving DecidableEq, Repr

/-! ### Model methods and save-time validation -/
/-- `userSchema.methods.hasAvailableBalance`. -/
def User.hasAvailableBalance (u : User) (amount : Rat) : Bool :=
  decide (u.balance - u.reservedBalance ≥ amount)

/-- `userSchema.methods.getAvailableBalance`. -/
def User.getAvailableBalance (u : User) : Rat :=
  max 0 (u.balance - u.reservedBalance)

/-- Saving a `User`: the schema declares `min: 0` on `balance` and
`reservedBalance`, and the `pre('save')` hook rejects
`reservedBalance > balance`. A failing save aborts the enclosing
transaction. -/
def userSave (u : User) : Except Err User :=
  if u.reservedBalance > u.balance then .error .validation
  else if u.balance < 0 then .error .validation
  else if u.reservedBalance < 0 then .error .validation
  else .ok u

/-- `auctionSchema.methods.canAcceptBids`. -/
def Auction.canAcceptBids (a : Auction) : Bool :=
  decide (a.status = AuctionStatus.active)

/-- `roundSchema.methods.isActive`. -/
def Round.isActive (r : Round) : Bool :=
  decide (r.status = RoundStatus.active)

/-- `roundSchema.methods.canExtend`. -/
def Round.canExtend (r : Round) (maxExtensions : Option Nat) : Bool :=
  if ¬ r.isActive then false
  else
    match maxExtensions with
    | some m => if r.extensionsCount ≥ m then false else true
    | none => true

/-- `roundSchema.methods.extend`: pushes `actualEndTime` forward by
`extensionSeconds`, bumps `extensionsCount` and stamps `lastExtensionAt`.
Throws when `actualEndTime` is unset. -/
def Round.extend (r : Round) (extensionSeconds : Nat) (now : Int) :
    Except Err Round :=
  match r.actualEndTime with
  | none => .error .internal
  | some t =>
      .ok { r with
        actualEndTime := some (t + (extensionSeconds : Int) * 1000)
        extensionsCount := r.extensionsCount + 1
        lastExtensionAt := some now }

/-- Saving a `Round`: the `pre('save')` hook requires
`scheduledEndTime > scheduledStartTime` and, when both actual times are
set, `actualEndTime > actualStartTime`. -/
def roundSave (r : Round) : Except Err Round :=
  if r.scheduledEndTime ≤ r.scheduledStartTime then .error .validation
  else
    match r.actualStartTime, r.actualEndTime with
    | some s, some e => if e ≤ s then .error .validation else .ok r
    | _, _ => .ok r

/-- `bidSchema.methods.canIncrease`. -/
def Bid.canIncrease (b : Bid) : Bool :=
  decide (b.status = BidStatus.active)

/-! ### Helpers from `src/utils/helpers.ts` -/
/-- `calculateStartItemNumber(roundNumber, itemsPerRound)`. -/
def calculateStartItemNumber (roundNumber itemsPerRound : Nat) : Nat :=
  (roundNumber - 1) * itemsPerRound + 1

/-- `Number(x.toFixed(2))`: rounding to two decimals, modelled on exact
rationals as round-half-up at the second decimal. -/
def round2 (q : Rat) : Rat :=
  ((⌊q * 100 + 1 / 2⌋ : Int) : Rat) / 100

/-- `calculateMinNextBid(currentBid, stepPercentage)`. -/
def calculateMinNextBid (currentBid stepPercentage : Rat) : Rat :=
  round2 (currentBid * (1 + stepPercentage / 100))

/-- `isInAntiSnipeWindow(currentTime, roundEndTime, antiSnipeWindow)`:
times in ms, the window parameter in seconds. -/
def isInAntiSnipeWindow (currentTime roundEndTime : Int)
    (antiSnipeWindow : Nat) : Bool :=
  let timeUntilEnd := roundEndTime - currentTime
  decide (timeUntilEnd ≤ (antiSnipeWindow : Int) * 1000) &&
    decide (timeUntilEnd > 0)

/-- `validateAmount`: requires `amount ≥ 0.01`, else a `ValidationError`. -/
def validateAmount (amount : Rat) : Except Err Unit :=
  if amount < 1 / 100 then .error .validation else .ok ()

/-! ### Collection lookups and in-place updates -/
def findUser (db : DB) (userId : Nat) : Option User :=
  db.users.find? (fun u => u.id == userId)

def findAuction (db : DB) (auctionId : Nat) : Option Auction :=
  db.auctions.find? (fun a => a.id == auctionId)

def findRound (db : DB) (roundId : Nat) : Option Round :=
  db.rounds.find? (fun r => r.id == roundId)

def findBid (db : DB) (bidId : Nat) : Option Bid :=
  db.bids.find? (fun b => b.id == bidId)

/-- `document.save()` for an existing user: replace by `_id`. -/
def updateUser (db : DB) (u : User) : DB :=
  { db with users := db.users.map (fun v => if v.id == u.id then u else v) }

def updateAuction (db : DB) (a : Auction) : DB :=
  { db with
    auctions := db.auctions.map (fun v => if v.id == a.id then a else v) }

def updateRound (db : DB) (r : Round) : DB :=
  { db with rounds := db.rounds.map (fun v => if v.id == r.id then r else v) }

def updateBid (db : DB) (b : Bid) : DB :=
  { db with bids := db.bids.map (fun v => if v.id == b.id then b else v) }

def addTx (db : DB) (t : TxRecord) : DB :=
  { db with txs := db.txs ++ [t] }

/-- `WonItem.create`: the unique indexes on `bidId` and on
`(auctionId, itemNumber)` reject duplicates. -/
def wonItemCreate (db : DB) (w : WonItem) : Except Err DB :=
  if db.wonItems.any (fun v =>
      v.bidId == w.bidId ||
        (v.auctionId == w.auctionId && v.itemNumber == w.itemNumber)) then
    .error .conflict
  else
    .ok { db with wonItems := db.wonItems ++ [w] }

/-! ### The ranking order

`.sort({ amount: -1, createdAt: 1 })`: amount descending, then `createdAt`
ascending. -/
/-- The authoritative bid ranking: higher amount first, earlier `createdAt`
breaking ties. -/
def bidOrder (b1 b2 : Bid) : Prop :=
  b2.amount < b1.amount ∨ (b1.amount = b2.amount ∧ b1.createdAt ≤ b2.createdAt)

instance : DecidableRel bidOrder := fun b1 b2 => by
  unfold bidOrder; infer_instance

instance : IsTotal Bid bidOrder := by
  constructor
  intro a b
  unfold bidOrder
  rcases lt_trichotomy a.amount b.amount with h | h | h
  · exact Or.inr (Or.inl h)
  · rcases le_total a.createdAt b.createdAt with h' | h'
    · exact Or.inl (Or.inr ⟨h, h'⟩)
    · exact Or.inr (Or.inr ⟨h.symm, h'⟩)
  · exact Or.inl (Or.inl h)

instance : IsTrans Bid bidOrder := by
  constructor
  intro a b c hab hbc
  unfold bidOrder at *
  rcases hab with h1 | ⟨h1, h1'⟩
  · rcases hbc with h2 | ⟨h2, _⟩
    · exact Or.inl (h2.trans h1)
    · exact Or.inl (h2 ▸ h1)
  · rcases hbc with h2 | ⟨h2, h2'⟩
    · exact Or.inl (h1 ▸ h2)
    · exact Or.inr ⟨h1.trans h2, h1'.trans h2'⟩

/-! ### `BidService.placeBid` -/
/-- The transactional body of `BidService.placeBid`: all checks and writes
between `startTransaction` and `commitTransaction`, in source order.
`newBidId` stands for the ObjectId MongoDB generates for the new document;
`now` is the wall clock. -/
def placeBidTx (db : DB) (auctionId userId : Nat) (amount : Rat)
    (newBidId : Nat) (now : Int) : Except Err (Bid × DB) := do
  let _ ← validateAmount amount
  match findAuction db auctionId with
  | none => .error .notFound
  | some auction =>
    if ¬ auction.canAcceptBids then .error .auctionNotActive
    else
      match db.rounds.find? (fun r =>
          r.auctionId == auctionId && r.status == RoundStatus.active) with
      | none => .error .roundNotActive
      | some currentRound =>
        if amount < auction.minBid then .error .bidTooLow
        else
          match findUser db userId with
          | none => .error .notFound
          | some user =>
            match db.bids.find? (fun b =>
                b.auctionId == auctionId && b.userId == userId &&
                  b.status == BidStatus.active) with
            | some _ => .error .conflict
            | none =>
              if ¬ user.hasAvailableBalance amount then
                .error .insufficientFunds
              else do
                let user' ← userSave { user with
                  reservedBalance := user.reservedBalance + amount
                  totalBids := user.totalBids + 1 }
                let db := updateUser db user'
                let bid : Bid := {
                  id := newBidId
                  auctionId := auctionId
                  userId := userId
                  amount := amount
                  originalAmount := amount
                  createdInRound := currentRound.roundNumber
                  currentRound := currentRound.roundNumber
                  status := .active
                  wonItemNumber := none
                  wonInRound := none
                  wonPosition := none
                  history := [⟨.created, amount, currentRound.roundNumber, now, none⟩]
                  createdAt := now }
                let db := { db with bids := db.bids ++ [bid] }
                let db := addTx db {
                  userId := userId
                  type := .bid_placed
                  amount := amount
                  auctionId := some auctionId
                  bidId := some bid.id
                  balanceBefore := user.balance
                  balanceAfter := user'.balance }
                .ok (bid, db)

/-! ### `RoundService.extendRound` and `checkAntiSnipe` -/
/-- `RoundService.extendRound`: when `canExtend` fails it logs and returns
the round unchanged (no error); otherwise it extends and saves. -/
def extendRound (db : DB) (roundId : Nat) (extensionSeconds : Nat)
    (now : Int) : Except Err (Round × DB) :=
  match findRound db roundId with
  | none => .error .notFound
  | some round =>
    match findAuction db round.auctionId with
    | none => .error .notFound
    | some auction =>
      if ¬ round.canExtend auction.maxExtensions then .ok (round, db)
      else do
        let r' ← round.extend extensionSeconds now
        let r'' ← roundSave r'
        .ok (r'', updateRound db r'')

/-- The body of `RoundService.checkAntiSnipe` before its catch-all
`try/catch`. -/
def checkAntiSnipeE (db : DB) (roundId : Nat)
    (antiSnipeWindow antiSnipeExtension : Nat) (maxExtensions : Option Nat)
    (now : Int) : Except Err (Bool × DB) :=
  match findRound db roundId with
  | none => .error .notFound
  | some round =>
    match round.actualEndTime with
    | none => .ok (false, db)
    | some endTime =>
      if ¬ isInAntiSnipeWindow now endTime antiSnipeWindow then .ok (false, db)
      else if ¬ round.canExtend maxExtensions then .ok (false, db)
      else do
        let (_, db') ← extendRound db roundId antiSnipeExtension now
        .ok (true, db')

/-- `RoundService.checkAntiSnipe`: the catch-all maps every error to
`false` with no committed change (the only write, `round.save()`, is the
last effect of the body, so a failure leaves the store untouched). -/
def checkAntiSnipe (db : DB) (roundId : Nat)
    (antiSnipeWindow antiSnipeExtension : Nat) (maxExtensions : Option Nat)
    (now : Int) : Bool × DB :=
  match checkAntiSnipeE db roundId antiSnipeWindow antiSnipeExtension
      maxExtensions now with
  | .ok r => r
  | .error _ => (false, db)

/-- `BidService.placeBid` with the post-commit anti-snipe step abstracted:
`antiSnipeRaw` stands for the body of `RoundService.checkAntiSnipe`
(which may fail in arbitrary ways — store I/O, rescheduling, …); its
result is filtered through that method's own catch-all, exactly as in the
source. -/
def placeBidWith (db : DB) (auctionId userId : Nat) (amount : Rat)
    (newBidId : Nat) (now : Int)
    (antiSnipeRaw : DB → Except Err (Bool × DB)) : Except Err (Bid × DB) := do
  let (bid, db') ← placeBidTx db auctionId userId amount newBidId now
  let (_, db'') := match antiSnipeRaw db' with
    | .ok r => r
    | .error _ => (false, db')
  .ok (bid, db'')

/-- The concrete anti-snipe call `placeBid` makes after commit: re-reads
the auction and the active round and runs the `checkAntiSnipe` body. -/
def antiSnipeStep (auctionId : Nat) (now : Int) (db' : DB) :
    Except Err (Bool × DB) :=
  match findAuction db' auctionId,
      db'.rounds.find? (fun r =>
        r.auctionId == auctionId && r.status == RoundStatus.active) with
  | some auction, some currentRound =>
      checkAntiSnipeE db' currentRound.id auction.antiSnipeWindow
        auction.antiSnipeExtension auction.maxExtensions now
  | _, _ => .ok (false, db')

/-- `BidService.placeBid` in full. -/
def placeBid (db : DB) (auctionId userId : Nat) (amount : Rat)
    (newBidId : Nat) (now : Int) : Except Err (Bid × DB) :=
  placeBidWith db auctionId userId amount newBidId now
    (antiSnipeStep auctionId now)

/-! ### `BidService.increaseBid` (transactional body) -/
/-- The transactional body of `BidService.increaseBid`. The post-commit
anti-snipe step only touches rounds and is modelled by `checkAntiSnipe`
separately. -/
def increaseBid (db : DB) (bidId userId : Nat) (newAmount : Rat)
    (now : Int) : Except Err (Bid × DB) := do
  let _ ← validateAmount newAmount
  match findBid db bidId with
  | none => .error .notFound
  | some bid =>
    if bid.userId ≠ userId then .error .conflict
    else if ¬ bid.canIncrease then .error .conflict
    else
      match findAuction db bid.auctionId with
      | none => .error .notFound
      | some auction =>
        let minNextBid := calculateMinNextBid bid.amount auction.minBidStep
        if newAmount < minNextBid then .error .bidTooLow
        else
          let difference := newAmount - bid.amount
          match findUser db userId with
          | none => .error .notFound
          | some user =>
            if ¬ user.hasAvailableBalance difference then
              .error .insufficientFunds
            else do
              let user' ← userSave { user with
                reservedBalance := user.reservedBalance + difference }
              let db := updateUser db user'
              let bid' := { bid with
                amount := newAmount
                history := bid.history ++
                  [⟨.increased, newAmount, bid.currentRound, now, some bid.amount⟩] }
              let db := updateBid db bid'
              let db := addTx db {
                userId := userId
                type := .bid_increased
                amount := difference
                auctionId := some bid.auctionId
                bidId := some bid.id
                balanceBefore := user.balance
                balanceAfter := user'.balance }
              .ok (bid', db)

/-! ### `BidService.cancelBid` -/
/-- `BidService.cancelBid`: only active bids whose current round has not
started; refunds by `balance += amount; reservedBalance -= amount`. -/
def cancelBid (db : DB) (bidId userId : Nat) (now : Int) :
    Except Err (Bid × DB) :=
  match findBid db bidId with
  | none => .error .notFound
  | some bid =>
    if bid.userId ≠ userId then .error .conflict
    else if bid.status ≠ .active then .error .conflict
    else
      let roundOpt := db.rounds.find? (fun r =>
        r.auctionId == bid.auctionId && r.roundNumber == bid.currentRound)
      if (match roundOpt with
          | some r => r.status == RoundStatus.active
          | none => false) then .error .conflict
      else
        match findUser db userId with
        | none => .error .notFound
        | some user => do
          let user' ← userSave { user with
            balance := user.balance + bid.amount
            reservedBalance := user.reservedBalance - bid.amount }
          let db := updateUser db user'
          let bid' := { bid with
            status := .refunded
            history := bid.history ++
              [⟨.refunded, bid.amount, bid.currentRound, now, none⟩] }
          let db := updateBid db bid'
          let db := addTx db {
            userId := userId
            type := .bid_refunded
            amount := bid.amount
            auctionId := some bid.auctionId
            bidId := some bid.id
            balanceBefore := user.balance
            balanceAfter := user'.balance }
          .ok (bid', db)

/-! ### `RoundService.completeRound` and `processWinners` -/
/-- The bid update a winner receives in `processWinners`. -/
def markWon (b : Bid) (itemNumber roundNumber position : Nat) (now : Int) :
    Bid :=
  { b with
    status := .won
    wonItemNumber := some itemNumber
    wonInRound := some roundNumber
    wonPosition := some position
    history := b.history ++ [⟨.won, b.amount, roundNumber, now, none⟩] }

/-- The user update and `bid_won` transaction of the winner loop. Note the
source decrements only `reservedBalance` (never `balance`) yet records
`balanceBefore = balance + amount`. A missing user is skipped
(`if (user) { … }`). -/
def commitWinUser (db : DB) (bid : Bid) (round : Round) : Except Err DB :=
  match findUser db bid.userId with
  | none => .ok db
  | some user => do
      let user' ← userSave { user with
        reservedBalance := user.reservedBalance - bid.amount
        totalWins := user.totalWins + 1
        totalSpent := user.totalSpent + bid.amount }
      let db := updateUser db user'
      .ok (addTx db {
        userId := bid.userId
        type := .bid_won
        amount := bid.amount
        auctionId := some round.auctionId
        bidId := some bid.id
        balanceBefore := user'.balance + bid.amount
        balanceAfter := user'.balance })

/-- `RoundService.refundBid` (terminal-round loser): the source credits
`balance += amount` in addition to releasing the reservation. A missing
user makes it return without any change. -/
def refundBid (db : DB) (bid : Bid) (now : Int) : Except Err DB :=
  match findUser db bid.userId with
  | none => .ok db
  | some user => do
      let user' ← userSave { user with
        balance := user.balance + bid.amount
        reservedBalance := user.reservedBalance - bid.amount }
      let db := updateUser db user'
      let bid' := { bid with
        status := .refunded
        history := bid.history ++
          [⟨.refunded, bid.amount, bid.currentRound, now, none⟩] }
      let db := updateBid db bid'
      .ok (addTx db {
        userId := bid.userId
        type := .bid_refunded
        amount := bid.amount
        auctionId := some bid.auctionId
        bidId := some bid.id
        balanceBefore := user'.balance - bid.amount
        balanceAfter := user'.balance })

/-- The winner `for` loop of `processWinners`: `i` is the loop counter. -/
def processWinnersLoop (round : Round) (startItemNumber : Nat) (now : Int) :
    Nat → List Bid → DB → Except Err DB
  | _, [], db => .ok db
  | i, bid :: rest, db => do
      let itemNumber := startItemNumber + i
      let db := updateBid db (markWon bid itemNumber round.roundNumber (i + 1) now)
      let db ← commitWinUser db bid round
      let db ← wonItemCreate db {
        auctionId := round.auctionId
        userId := bid.userId
        bidId := bid.id
        itemNumber := itemNumber
        roundNumber := round.roundNumber
        positionInRound := i + 1
        winningBidAmount := bid.amount }
      processWinnersLoop round startItemNumber now (i + 1) rest db

/-- The carry-over update a non-terminal loser receives. -/
def carryOverLoser (db : DB) (bid : Bid) (roundNumber : Nat) (now : Int) :
    DB :=
  updateBid db { bid with
    status := .carried_over
    currentRound := roundNumber + 1
    history := bid.history ++
      [⟨.carried_over, bid.amount, roundNumber + 1, now, none⟩] }

/-- The loser `for` loop of `processWinners`. -/
def processLosersLoop (round : Round) (isLastRound : Bool) (now : Int) :
    List Bid → DB → Except Err DB
  | [], db => .ok db
  | bid :: rest, db => do
      let db ←
        if isLastRound then refundBid db bid now
        else .ok (carryOverLoser db bid round.roundNumber now)
      processLosersLoop round isLastRound now rest db

/-- The round's active bids, as fetched by `processWinners` (and the
leaderboard queries). -/
def roundActiveBids (db : DB) (round : Round) : List Bid :=
  db.bids.filter (fun b =>
    b.auctionId == round.auctionId && b.currentRound == round.roundNumber &&
      b.status == BidStatus.active)

/-- `RoundService.processWinners`: sort the round's active bids by
`(amount DESC, createdAt ASC)`, award the first
`min(itemsInRound, |bids|)` of them, then carry over or refund the rest. -/
def processWinners (round : Round) (auction : Auction) (db : DB)
    (now : Int) : Except Err DB :=
  let bids := (roundActiveBids db round).insertionSort bidOrder
  let winnersCount := min round.itemsInRound bids.length
  let winners := bids.take winnersCount
  let losers := bids.drop winnersCount
  let startItemNumber :=
    calculateStartItemNumber round.roundNumber auction.itemsPerRound
  do
    let db ← processWinnersLoop round startItemNumber now 0 winners db
    processLosersLoop round (decide (round.roundNumber ≥ auction.totalRounds))
      now losers db

/-- `RoundService.completeRound`: requires an active round, processes
winners, then saves the round as `completed` with `winnersProcessed`.
The whole body is one transaction. -/
def completeRound (db : DB) (roundId : Nat) (now : Int) : Except Err DB :=
  match findRound db roundId with
  | none => .error .notFound
  | some round =>
    if round.status ≠ RoundStatus.active then .error .conflict
    else
      match findAuction db round.auctionId with
      | none => .error .notFound
      | some auction => do
          let db' ← processWinners round auction db now
          let round' := { round with
            status := RoundStatus.completed
            actualEndTime := some now
            winnersProcessed := true }
          let round'' ← roundSave round'
          .ok (updateRound db' round'')

/-- Running `completeRound` against the store: an aborted transaction
leaves the store unchanged. -/
def runCompleteRound (db : DB) (roundId : Nat) (now : Int) : DB :=
  match completeRound db roundId now with
  | .ok db' => db'
  | .error _ => db

/-- The per-bid update of `RoundService.carryOverBids`: a fetched
`carried_over` bid is set back to `active` on the new round. -/
def carryOverFlip (bid : Bid) (currentRoundNumber : Nat) (now : Int) :
    Bid :=
  { bid with
    status := .active
    currentRound := currentRoundNumber
    history := bid.history ++
      [⟨.carried_over, bid.amount, currentRoundNumber, now, none⟩] }

/-- `RoundService.carryOverBids`: fetches the bids with
`currentRound = currentRoundNumber - 1` and status `carried_over` and
saves each one flipped to `active` on the current round. (Note the query:
`completeRound` stores a loser with `currentRound = roundNumber + 1`,
i.e. already the next round's number, so this fetch never matches it.) -/
def carryOverBids (db : DB) (auctionId currentRoundNumber : Nat)
    (now : Int) : DB :=
  let previousRoundNumber := currentRoundNumber - 1
  let bidsToCarryOver := db.bids.filter (fun b =>
    b.auctionId == auctionId && b.currentRound == previousRoundNumber &&
      b.status == BidStatus.carried_over)
  bidsToCarryOver.foldl
    (fun d b => updateBid d (carryOverFlip b currentRoundNumber now)) db

/-- `RoundService.startRound`: requires a `scheduled` round, activates it
(with `actualEndTime := now + (scheduledEnd - scheduledStart)`), runs
`carryOverBids` when `roundNumber > 1`, and sets the auction to `active`
on `currentRound := roundNumber`. The whole body is one transaction. -/
def startRound (db : DB) (roundId : Nat) (now : Int) :
    Except Err (Round × DB) :=
  match findRound db roundId with
  | none => .error .notFound
  | some round =>
    if round.status ≠ RoundStatus.scheduled then .error .conflict
    else do
      let round' := { round with
        status := RoundStatus.active
        actualStartTime := some now
        actualEndTime :=
          some (now + (round.scheduledEndTime - round.scheduledStartTime)) }
      let round'' ← roundSave round'
      let db := updateRound db round''
      let db :=
        if round.roundNumber > 1 then
          carryOverBids db round.auctionId round.roundNumber now
        else db
      let db :=
        match findAuction db round.auctionId with
        | none => db
        | some auction => updateAuction db { auction with
            currentRound := round.roundNumber
            status := AuctionStatus.active }
      .ok (round'', db)

/-! ### `UserService.deposit` / `withdraw`, `AuctionService.cancelAuction` -/
/-- `UserService.deposit`. -/
def deposit (db : DB) (userId : Nat) (amount : Rat) :
    Except Err (User × DB) := do
  let _ ← validateAmount amount
  match findUser db userId with
  | none => .error .notFound
  | some user => do
      let user' ← userSave { user with balance := user.balance + amount }
      let db := updateUser db user'
      .ok (user', addTx db {
        userId := userId
        type := .deposit
        amount := amount
        auctionId := none
        bidId := none
        balanceBefore := user.balance
        balanceAfter := user'.balance })

/-- `UserService.withdraw`: requires `getAvailableBalance() ≥ amount`. -/
def withdraw (db : DB) (userId : Nat) (amount : Rat) :
    Except Err (User × DB) := do
  let _ ← validateAmount amount
  match findUser db userId with
  | none => .error .notFound
  | some user =>
      if user.getAvailableBalance < amount then .error .insufficientFunds
      else do
        let user' ← userSave { user with balance := user.balance - amount }
        let db := updateUser db user'
        .ok (user', addTx db {
          userId := userId
          type := .withdrawal
          amount := amount
          auctionId := none
          bidId := none
          balanceBefore := user.balance
          balanceAfter := user'.balance })

/-- `AuctionService.cancelAuction`: the source rejects only `completed`
and `cancelled` auctions, then just sets `status := cancelled`; the refund
of participants is a `TODO` comment and is not performed. -/
def cancelAuction (db : DB) (auctionId : Nat) : Except Err (Auction × DB) :=
  match findAuction db auctionId with
  | none => .error .notFound
  | some auction =>
    if auction.status = AuctionStatus.completed then .error .conflict
    else if auction.status = AuctionStatus.cancelled then .error .conflict
    else
      let a' := { auction with status := AuctionStatus.cancelled }
      .ok (a', updateAuction db a')

/-! ### The operations of the ledger surface, as one step relation -/
/-- The balance-touching operations the service layer exposes. -/
inductive Op where
  | placeBid (auctionId userId : Nat) (amount : Rat) (newBidId : Nat)
  | increaseBid (bidId userId : Nat) (newAmount : Rat)
  | cancelBid (bidId userId : Nat)
  | completeRound (roundId : Nat)
  | deposit (userId : Nat) (amount : Rat)
  | withdraw (userId : Nat) (amount : Rat)

/-- One committed service operation against the store. -/
def step (db : DB) (now : Int) : Op → Except Err DB
  | .placeBid a u amt nid => (placeBid db a u amt nid now).map Prod.snd
  | .increaseBid b u amt => (increaseBid db b u amt now).map Prod.snd
  | .cancelBid b u => (cancelBid db b u now).map Prod.snd
  | .completeRound r => completeRound db r now
  | .deposit u amt => (deposit db u amt).map Prod.snd
  | .withdraw u amt => (withdraw db u amt).map Prod.snd

/-! ### The ledger invariant and its preservation plumbing -/
/-- `0 ≤ reserved ≤ balance` for one user. -/
def userInv (u : User) : Prop :=
  0 ≤ u.reservedBalance ∧ u.reservedBalance ≤ u.balance

/-- The ledger invariant over the whole store. -/
def usersInv (db : DB) : Prop := ∀ u ∈ db.users, userInv u

/-- Concrete four-field store for the C4 witness: a one-item terminal
round with two equal bids of 500 where the earlier `createdAt` wins. -/
def c4u1 : User := ⟨1, 1000, 500, 1, 0, 0⟩

def c4u2 : User := ⟨2, 1000, 500, 1, 0, 0⟩

def c4auction : Auction :=
  ⟨1, 1, 1, 3600, 60, 60, some 3, 100, 5, .active, 1, 1⟩

def c4round : Round :=
  ⟨1, 1, 1, 1, 0, some 10, 3600000, some 3600000, 0, none, .active, false⟩

def c4bidA : Bid := ⟨1, 1, 1, 500, 500, 1, 1, .active, none, none, none, [], 100⟩

def c4bidB : Bid := ⟨2, 1, 2, 500, 500, 1, 1, .active, none, none, none, [], 50⟩

def c4db : DB := ⟨[c4u1, c4u2], [c4auction], [c4round], [c4bidA, c4bidB], [], []⟩

def c4db' : DB := runCompleteRound c4db 1 3700000

/-- A one-user store for the C5 witness. -/
def c5db : DB := ⟨[⟨1, 50, 20, 0, 0, 0⟩], [], [], [], [], []⟩

/-- The store after a committed deposit of 100 for that user. -/
def c5db' : DB :=
  ⟨[⟨1, 150, 20, 0, 0, 0⟩], [], [], [],
    [⟨1, .deposit, 100, none, none, 50, 150⟩], []⟩

/-- Concrete round for the C7 witness: active, ends at t=100000 ms, no
extensions yet. -/
def c7round : Round :=
  ⟨1, 1, 1, 10, 0, some 10, 100000, some 100000, 0, none, .active, false⟩

/-- Concrete auction for the C7 witness: 60 s window, 60 s extension, at
most 3 extensions. -/
def c7auction : Auction :=
  ⟨1, 10, 10, 100, 60, 60, some 3, 100, 5, .active, 1, 1⟩

def c7db : DB := ⟨[], [c7auction], [c7round], [], [], []⟩

/-- Concrete store for the C8 witness: one active bid of 100 on an
auction with a 5 percent minimum step; the user has 1000 with 100
reserved. -/
def c8user : User := ⟨1, 1000, 100, 1, 0, 0⟩

def c8auction : Auction :=
  ⟨1, 10, 10, 3600, 60, 60, some 3, 100, 5, .active, 1, 1⟩

def c8bid : Bid := ⟨1, 1, 1, 100, 100, 1, 1, .active, none, none, none, [], 10⟩

def c8db : DB := ⟨[c8user], [c8auction], [], [c8bid], [], []⟩

/-- The bid and store after the committed increase to 105. -/
def c8bid2 : Bid :=
  match increaseBid c8db 1 1 105 99 with
  | .ok p => p.1
  | .error _ => c8bid

def c8db2 : DB :=
  match increaseBid c8db 1 1 105 99 with
  | .ok p => p.2
  | .error _ => c8db

/-- Concrete store for the C3 counterexample: user 7 holds a
`carried_over` bid on auction 1 while round 2 is active. -/
def c3user : User := ⟨7, 1000, 100, 1, 0, 0⟩

def c3auction : Auction :=
  ⟨1, 20, 10, 3600, 60, 60, some 3, 100, 5, .active, 2, 2⟩

def c3oldBid : Bid :=
  ⟨1, 1, 7, 100, 100, 1, 2, .carried_over, none, none, none, [], 10⟩

def c3round : Round :=
  ⟨2, 1, 2, 10, 0, some 10, 3600000, some 999999999, 0, none, .active, false⟩

def c3db : DB := ⟨[c3user], [c3auction], [c3round], [c3oldBid], [], []⟩

/-- The count, after the call, of user 7's bids on auction 1 whose status
is `active` or `carried_over`. -/
def c3liveCountAfter : Nat :=
  match placeBid c3db 1 7 200 9 50 with
  | .ok p => (p.2.bids.filter (fun b => b.auctionId == 1 && b.userId == 7 &&
      (b.status == BidStatus.active ||
        b.status == BidStatus.carried_over))).length
  | .error _ => 0

/-- Reaching the C3 counterexample state through the services themselves:
a two-round auction (one item per round) with two bidders. -/
def c3sAuction : Auction :=
  ⟨1, 2, 1, 3600, 60, 60, some 3, 100, 5, .active, 1, 2⟩

def c3sRound1 : Round :=
  ⟨1, 1, 1, 1, 0, some 0, 3600000, some 3600000, 0, none, .active, false⟩

def c3sRound2 : Round :=
  ⟨2, 1, 2, 1, 3600000, none, 7200000, none, 0, none, .scheduled, false⟩

def c3s0 : DB :=
  ⟨[⟨7, 1000, 0, 0, 0, 0⟩, ⟨8, 1000, 0, 0, 0, 0⟩], [c3sAuction],
    [c3sRound1, c3sRound2], [], [], []⟩

/-- After user 7 bids 100 in round 1. -/
def c3s1 : DB :=
  match placeBid c3s0 1 7 100 1 10 with
  | .ok p => p.2
  | .error _ => c3s0

/-- After user 8 bids 200 in round 1. -/
def c3s2 : DB :=
  match placeBid c3s1 1 8 200 2 20 with
  | .ok p => p.2
  | .error _ => c3s1

/-- After round 1 completes: user 8 wins the single item, user 7's losing
bid is stored `carried_over` with `currentRound = 2`. -/
def c3s3 : DB := runCompleteRound c3s2 1 3600001

/-- After round 2 starts: `carryOverBids` queries
`currentRound = 2 - 1 = 1`, which matches nothing (the loser's bid
already has `currentRound = 2`), so the bid stays `carried_over` while
round 2 is `active`. -/
def c3s4 : DB :=
  match startRound c3s3 2 3600100 with
  | .ok p => p.2
  | .error _ => c3s3

/-- After user 7 places a second bid on the same auction in round 2. -/
def c3s5 : DB :=
  match placeBid c3s4 1 7 150 3 3600200 with
  | .ok p => p.2
  | .error _ => c3s4

/-- Concrete store for the C3 witness: like the counterexample's store but
the existing bid is `active`, so `placeBid` is rejected with Conflict. -/
def c3wBid : Bid :=
  ⟨1, 1, 7, 100, 100, 2, 2, .active, none, none, none, [], 10⟩

def c3wdb : DB := ⟨[c3user], [c3auction], [c3round], [c3wBid], [], []⟩

/-- An anti-snipe body that always fails, for the C10 witness. -/
def c10raw : DB → Except Err (Bool × DB) := fun _ => .error .internal

def c10bid : Bid :=
  match placeBidTx c3db 1 7 200 9 50 with
  | .ok p => p.1
  | .error _ => c3oldBid

def c10db1 : DB :=
  match placeBidTx c3db 1 7 200 9 50 with
  | .ok p => p.2
  | .error _ => c3db

/-! ### Claim C1: the winner commit and the balance field -/
/-- Concrete store for C1: a one-item terminal round whose single active
bid of 100 belongs to user 10 (balance 500, reserved 100). -/
def c1user : User := ⟨10, 500, 100, 1, 0, 0⟩

def c1auction : Auction :=
  ⟨1, 1, 1, 3600, 60, 60, some 3, 100, 5, .active, 1, 1⟩

def c1round : Round :=
  ⟨1, 1, 1, 1, 0, some 10, 3600000, some 3600000, 0, none, .active, false⟩

def c1bid : Bid := ⟨1, 1, 10, 100, 100, 1, 1, .active, none, none, none, [], 50⟩

def c1db : DB := ⟨[c1user], [c1auction], [c1round], [c1bid], [], []⟩

def c1db' : DB := runCompleteRound c1db 1 3700000

/-! ### Claim C2: refunds and the balance field -/
/-- Concrete store for the C2 `cancelBid` path: user 20 (balance 500,
reserved 100) holds an active bid of 100 whose round is still scheduled. -/
def c2user : User := ⟨20, 500, 100, 1, 0, 0⟩

def c2round : Round :=
  ⟨2, 2, 1, 10, 1000, none, 3601000, none, 0, none, .scheduled, false⟩

def c2bid : Bid := ⟨2, 2, 20, 100, 100, 1, 1, .active, none, none, none, [], 50⟩

def c2db : DB := ⟨[c2user], [], [c2round], [c2bid], [], []⟩

def c2userAfter : Option User :=
  match cancelBid c2db 2 20 99 with
  | .ok p => findUser p.2 20
  | .error _ => none

/-- Concrete store for the C2 terminal-loser path: a one-item terminal
round where user 31 outbids user 30 (balance 500, reserved 100). -/
def c2LoserDb : DB :=
  ⟨[⟨30, 500, 100, 1, 0, 0⟩, ⟨31, 1000, 200, 1, 0, 0⟩],
    [⟨3, 1, 1, 3600, 60, 60, some 3, 100, 5, .active, 1, 1⟩],
    [⟨3, 3, 1, 1, 0, some 10, 3600000, some 3600000, 0, none, .active,
      false⟩],
    [⟨31, 3, 31, 200, 200, 1, 1, .active, none, none, none, [], 20⟩,
      ⟨30, 3, 30, 100, 100, 1, 1, .active, none, none, none, [], 30⟩],
    [], []⟩

def c2loserAfter : Option User :=
  findUser (runCompleteRound c2LoserDb 3 3700000) 30

/-! ### Claim C6: cancelAuction -/
/-- Concrete store for C6: an `active` auction with one active bid whose
reservation of 100 is held by user 60. -/
def c6user : User := ⟨60, 500, 100, 1, 0, 0⟩

def c6auction : Auction :=
  ⟨6, 10, 10, 3600, 60, 60, some 3, 100, 5, .active, 1, 1⟩

def c6bid : Bid := ⟨6, 6, 60, 100, 100, 1, 1, .active, none, none, none, [], 10⟩

def c6db : DB := ⟨[c6user], [c6auction], [], [c6bid], [], []⟩

def c6result : Option (AuctionStatus × Option User × Option Bid) :=
  match cancelAuction c6db 6 with
  | .ok p => some (p.1.status, findUser p.2 60, findBid p.2 6)
  | .error _ => none

/-! ### Lemmas about keyed lookup and in-place replacement -/
theorem find?_replace_eq {α : Type} (key : α → Nat) (l : List α) (k : Nat)
    (x x' : α) (h : l.find? (fun v => key v == k) = some x)
    (hk : key x' = key x) :
    (l.map (fun v => if key v == key x' then x' else v)).find?
      (fun v => key v == k) = some x' := by
  induction l with
  | nil => simp at h
  | cons a tl ih =>
    by_cases hak : key a = k
    · have hpos : ((fun v => key v == k) a) = true := by simpa using hak
      rw [List.find?_cons_of_pos (p := fun v => key v == k) _ hpos] at h
      have hx : a = x := by injection h
      have hax : key a = key x' := by rw [hk, ← hx]
      have hrep : (if (key a == key x') = true then x' else a) = x' := by
        simp [hax]
      simp only [List.map_cons]
      rw [hrep]
      have hpos' : ((fun v => key v == k) x') = true := by
        simp only [hk, ← hx]
        simpa using hak
      exact List.find?_cons_of_pos (p := fun v => key v == k) _ hpos'
    · have hneg : ¬ ((fun v => key v == k) a) = true := by simpa using hak
      rw [List.find?_cons_of_neg (p := fun v => key v == k) _ hneg] at h
      have hxk : key x = k := by simpa using List.find?_some h
      simp only [List.map_cons]
      by_cases hax : key a = key x'
      · exact absurd (by rw [hax, hk, hxk]) hak
      · have hrep : (if (key a == key x') = true then x' else a) = a := by
          simp [hax]
        rw [hrep, List.find?_cons_of_neg (p := fun v => key v == k) _ hneg]
        exact ih h

theorem find?_replace_ne {α : Type} (key : α → Nat) (l : List α) (k : Nat)
    (x' : α) (hk : ¬ key x' = k) :
    (l.map (fun v => if key v == key x' then x' else v)).find?
      (fun v => key v == k) = l.find? (fun v => key v == k) := by
  induction l with
  | nil => rfl
  | cons a tl ih =>
    simp only [List.map_cons]
    by_cases hax : key a = key x'
    · have hak : ¬ key a = k := by rw [hax]; exact hk
      have hrep : (if (key a == key x') = true then x' else a) = x' := by
        simp [hax]
      rw [hrep]
      have hneg1 : ¬ ((fun v => key v == k) x') = true := by simpa using hk
      have hneg2 : ¬ ((fun v => key v == k) a) = true := by simpa using hak
      rw [List.find?_cons_of_neg (p := fun v => key v == k) _ hneg1,
        List.find?_cons_of_neg (p := fun v => key v == k) _ hneg2]
      exact ih
    · have hrep : (if (key a == key x') = true then x' else a) = a := by
        simp [hax]
      rw [hrep]
      by_cases hak : key a = k
      · have hpos : ((fun v => key v == k) a) = true := by simpa using hak
        rw [List.find?_cons_of_pos (p := fun v => key v == k) _ hpos,
          List.find?_cons_of_pos (p := fun v => key v == k) _ hpos]
      · have hneg : ¬ ((fun v => key v == k) a) = true := by simpa using hak
        rw [List.find?_cons_of_neg (p := fun v => key v == k) _ hneg,
          List.find?_cons_of_neg (p := fun v => key v == k) _ hneg]
        exact ih

theorem map_key_replace {α : Type} (key : α → Nat) (l : List α) (x' : α) :
    (l.map (fun v => if key v == key x' then x' else v)).map key =
      l.map key := by
  induction l with
  | nil => rfl
  | cons a tl ih =>
    simp only [List.map_cons]
    by_cases hax : key a = key x'
    · have hrep : (if (key a == key x') = true then x' else a) = x' := by
        simp [hax]
      rw [hrep, ih, hax]
    · have hrep : (if (key a == key x') = true then x' else a) = a := by
        simp [hax]
      rw [hrep, ih]

theorem find?_self_of_nodup {α : Type} (key : α → Nat) (l : List α) (x : α)
    (hnd : (l.map key).Nodup) (hx : x ∈ l) :
    l.find? (fun v => key v == key x) = some x := by
  induction l with
  | nil => simp at hx
  | cons a tl ih =>
    rw [List.map_cons] at hnd
    rcases List.mem_cons.mp hx with hx | hx
    · subst hx
      have hpos : ((fun v => key v == key x) x) = true := by simp
      exact List.find?_cons_of_pos (p := fun v => key v == key x) _ hpos
    · have hnd' : (tl.map key).Nodup := (List.nodup_cons.mp hnd).2
      have hmem : key x ∈ tl.map key := List.mem_map_of_mem key hx
      have hne : key a ≠ key x := fun he =>
        (List.nodup_cons.mp hnd).1 (he ▸ hmem)
      have hneg : ¬ ((fun v => key v == key x) a) = true := by simpa using hne
      rw [List.find?_cons_of_neg (p := fun v => key v == key x) _ hneg]
      exact ih hnd' hx

/-! ### Plumbing lemmas for the `Except`-modelled transactions -/
theorem exceptBind_ok {ε α β : Type} (x : Except ε α) (f : α → Except ε β)
    (b : β) : (x >>= f) = .ok b ↔ ∃ a, x = .ok a ∧ f a = .ok b := by
  cases x <;> simp [Bind.bind, Except.bind]

theorem findUser_update_self {db : DB} {uid : Nat} {u u' : User}
    (h : findUser db uid = some u) (hid : u'.id = u.id) :
    findUser (updateUser db u') uid = some u' :=
  find?_replace_eq User.id db.users uid u u' h hid

theorem findUser_update_ne {db : DB} {uid : Nat} {u' : User}
    (h : ¬ u'.id = uid) :
    findUser (updateUser db u') uid = findUser db uid :=
  find?_replace_ne User.id db.users uid u' h

theorem findBid_update_self {db : DB} {k : Nat} {b b' : Bid}
    (h : findBid db k = some b) (hid : b'.id = b.id) :
    findBid (updateBid db b') k = some b' :=
  find?_replace_eq Bid.id db.bids k b b' h hid

theorem findBid_update_ne {db : DB} {k : Nat} {b' : Bid}
    (h : ¬ b'.id = k) :
    findBid (updateBid db b') k = findBid db k :=
  find?_replace_ne Bid.id db.bids k b' h

theorem findRound_update_self {db : DB} {k : Nat} {r r' : Round}
    (h : findRound db k = some r) (hid : r'.id = r.id) :
    findRound (updateRound db r') k = some r' :=
  find?_replace_eq Round.id db.rounds k r r' h hid

theorem bidIds_updateBid (db : DB) (b : Bid) :
    (updateBid db b).bids.map Bid.id = db.bids.map Bid.id :=
  map_key_replace Bid.id db.bids b

theorem userSave_ok {u u' : User} (h : userSave u = .ok u') :
    u' = u ∧ userInv u := by
  unfold userSave at h
  by_cases h1 : u.reservedBalance > u.balance
  · rw [if_pos h1] at h
    exact absurd h (fun hh => Except.noConfusion hh)
  · rw [if_neg h1] at h
    by_cases h2 : u.balance < 0
    · rw [if_pos h2] at h
      exact absurd h (fun hh => Except.noConfusion hh)
    · rw [if_neg h2] at h
      by_cases h3 : u.reservedBalance < 0
      · rw [if_pos h3] at h
        exact absurd h (fun hh => Except.noConfusion hh)
      · rw [if_neg h3] at h
        exact ⟨(Except.ok.inj h).symm, le_of_not_lt h3, le_of_not_lt h1⟩

theorem usersInv_update {db : DB} {u' : User} (hdb : usersInv db)
    (hu : userInv u') : usersInv (updateUser db u') := by
  intro v hv
  unfold updateUser at hv
  simp only [List.mem_map] at hv
  obtain ⟨w, hw, rfl⟩ := hv
  by_cases hid : (w.id == u'.id) = true
  · simpa [hid] using hu
  · simpa [hid] using hdb w hw

theorem wonItemCreate_ok {db db₂ : DB} {w : WonItem}
    (h : wonItemCreate db w = .ok db₂) :
    db₂.users = db.users ∧ db₂.bids = db.bids ∧ db₂.rounds = db.rounds := by
  unfold wonItemCreate at h
  split at h
  · exact absurd h (fun hh => Except.noConfusion hh)
  · have := Except.ok.inj h
    subst this
    exact ⟨rfl, rfl, rfl⟩

theorem findBid_eq_of_bids_eq {db db' : DB} (h : db'.bids = db.bids)
    (k : Nat) : findBid db' k = findBid db k := by
  unfold findBid
  rw [h]

theorem commitWinUser_spec {db db₂ : DB} {bid : Bid} {round : Round}
    (h : commitWinUser db bid round = .ok db₂) :
    db₂.bids = db.bids ∧ db₂.rounds = db.rounds ∧
    (usersInv db → usersInv db₂) := by
  unfold commitWinUser at h
  split at h
  · have := Except.ok.inj h
    subst this
    exact ⟨rfl, rfl, id⟩
  · rw [exceptBind_ok] at h
    obtain ⟨user', hsave, h⟩ := h
    have := Except.ok.inj h
    subst this
    obtain ⟨hEq, hInv⟩ := userSave_ok hsave
    exact ⟨rfl, rfl, fun hinv => usersInv_update hinv (hEq ▸ hInv)⟩

theorem refundBid_spec {db db₂ : DB} {bid : Bid} {now : Int}
    (h : refundBid db bid now = .ok db₂) :
    db₂.rounds = db.rounds ∧
    (usersInv db → usersInv db₂) ∧
    db₂.bids.map Bid.id = db.bids.map Bid.id ∧
    (∀ k, ¬ bid.id = k → findBid db₂ k = findBid db k) ∧
    (∀ c, findBid db bid.id = some c → c.status ≠ BidStatus.won →
      ∃ c', findBid db₂ bid.id = some c' ∧ c'.status ≠ BidStatus.won) := by
  unfold refundBid at h
  split at h
  · have := Except.ok.inj h
    subst this
    exact ⟨rfl, id, rfl, fun _ _ => rfl, fun c hc hs => ⟨c, hc, hs⟩⟩
  · rw [exceptBind_ok] at h
    obtain ⟨user', hsave, h⟩ := h
    have := Except.ok.inj h
    subst this
    obtain ⟨hEq, hInv⟩ := userSave_ok hsave
    refine ⟨rfl, fun hinv => usersInv_update hinv (hEq ▸ hInv), ?_, ?_, ?_⟩
    · exact bidIds_updateBid (updateUser db user') _
    · intro k hk
      exact find?_replace_ne Bid.id (updateUser db user').bids k _ hk
    · intro c hc _
      refine ⟨_, find?_replace_eq Bid.id (updateUser db user').bids bid.id c _
        hc ?_, ?_⟩
      · have := List.find?_some hc
        simpa using (Nat.eq_of_beq_eq_true (by simpa using this)).symm
      · intro hw
        exact BidStatus.noConfusion (hw : BidStatus.refunded = BidStatus.won)

theorem usersInv_of_users_eq {db db' : DB} (h : db'.users = db.users) :
    usersInv db → usersInv db' := by
  intro hi u hu
  exact hi u (h ▸ hu)

theorem processWinnersLoop_spec {round : Round} {start : Nat} {now : Int}
    (ws : List Bid) :
    ∀ (i : Nat) (db db₂ : DB),
      processWinnersLoop round start now i ws db = .ok db₂ →
      db₂.rounds = db.rounds ∧
      (usersInv db → usersInv db₂) ∧
      db₂.bids.map Bid.id = db.bids.map Bid.id ∧
      (∀ k, k ∉ ws.map Bid.id → findBid db₂ k = findBid db k) ∧
      ((ws.map Bid.id).Nodup →
        (∀ b ∈ ws, (findBid db b.id).isSome) →
        ∀ j (hj : j < ws.length),
          findBid db₂ ((ws.get ⟨j, hj⟩).id) =
            some (markWon (ws.get ⟨j, hj⟩) (start + i + j) round.roundNumber
              (i + j + 1) now)) := by
  induction ws with
  | nil =>
    intro i db db₂ h
    simp only [processWinnersLoop] at h
    have := Except.ok.inj h
    subst this
    exact ⟨rfl, id, rfl, fun _ _ => rfl, fun _ _ j hj => absurd hj (by simp)⟩
  | cons bid rest ih =>
    intro i db db₂ h
    simp only [processWinnersLoop] at h
    rw [exceptBind_ok] at h
    obtain ⟨dbB, hB, h⟩ := h
    rw [exceptBind_ok] at h
    obtain ⟨dbC, hC, h⟩ := h
    obtain ⟨hCb, hCr, hCi⟩ := commitWinUser_spec hB
    obtain ⟨hWu, hWb, hWr⟩ := wonItemCreate_ok hC
    obtain ⟨ihr, ihu, ihids, ihframe, ihmark⟩ := ih (i + 1) dbC db₂ h
    have hmarkid :
        (markWon bid (start + i) round.roundNumber (i + 1) now).id = bid.id :=
      rfl
    have hAfacts : ∀ k, ¬ bid.id = k →
        findBid dbC k = findBid db k := by
      intro k hk
      rw [findBid_eq_of_bids_eq hWb, findBid_eq_of_bids_eq hCb]
      exact find?_replace_ne Bid.id db.bids k _ hk
    refine ⟨?_, ?_, ?_, ?_, ?_⟩
    · rw [ihr, hWr, hCr]
      rfl
    · intro hinv
      exact ihu (usersInv_of_users_eq hWu (hCi hinv))
    · rw [ihids, hWb, hCb]
      exact bidIds_updateBid db _
    · intro k hk
      simp only [List.map_cons, List.mem_cons, not_or] at hk
      rw [ihframe k hk.2, hAfacts k (fun he => hk.1 he.symm)]
    · intro hnd hsome j hj
      simp only [List.map_cons, List.nodup_cons] at hnd
      match j with
      | 0 =>
        have hframe' : findBid db₂ bid.id = findBid dbC bid.id :=
          ihframe bid.id hnd.1
        obtain ⟨c, hc⟩ := Option.isSome_iff_exists.mp
          (hsome bid (List.mem_cons_self bid rest))
        have hcid : c.id = bid.id := by
          have := List.find?_some hc
          exact Nat.eq_of_beq_eq_true (by simpa using this)
        have hmk : findBid dbC bid.id =
            some (markWon bid (start + i) round.roundNumber (i + 1) now) := by
          rw [findBid_eq_of_bids_eq hWb, findBid_eq_of_bids_eq hCb]
          exact find?_replace_eq Bid.id db.bids bid.id c _ hc
            (by rw [hcid]; exact hmarkid)
        simpa using hframe'.trans hmk
      | j' + 1 =>
        have hsome' : ∀ b ∈ rest, (findBid dbC b.id).isSome := by
          intro b hb
          have hne : ¬ bid.id = b.id := by
            intro he
            exact hnd.1 (he ▸ List.mem_map_of_mem Bid.id hb)
          rw [hAfacts b.id hne]
          exact hsome b (List.mem_cons_of_mem bid hb)
        have hj' : j' < rest.length := by
          simpa using Nat.lt_of_succ_lt_succ (by simpa using hj)
        have hm := ihmark hnd.2 hsome' j' hj'
        have e1 : start + (i + 1) + j' = start + i + (j' + 1) := by omega
        have e2 : i + 1 + j' + 1 = i + (j' + 1) + 1 := by omega
        rw [e1, e2] at hm
        simpa using hm

theorem processLosersLoop_spec {round : Round} {isLast : Bool} {now : Int}
    (ls : List Bid) :
    ∀ (db db₂ : DB),
      processLosersLoop round isLast now ls db = .ok db₂ →
      db₂.rounds = db.rounds ∧
      (usersInv db → usersInv db₂) ∧
      db₂.bids.map Bid.id = db.bids.map Bid.id ∧
      (∀ k, k ∉ ls.map Bid.id → findBid db₂ k = findBid db k) ∧
      ((ls.map Bid.id).Nodup →
        (∀ b ∈ ls, ∃ c, findBid db b.id = some c ∧ c.status ≠ BidStatus.won) →
        ∀ b ∈ ls, ∃ c, findBid db₂ b.id = some c ∧
          c.status ≠ BidStatus.won) := by
  induction ls with
  | nil =>
    intro db db₂ h
    simp only [processLosersLoop] at h
    have := Except.ok.inj h
    subst this
    exact ⟨rfl, id, rfl, fun _ _ => rfl, fun _ _ b hb => absurd hb (by simp)⟩
  | cons bid rest ih =>
    intro db db₂ h
    simp only [processLosersLoop] at h
    have key : ∃ dbB, (dbB.rounds = db.rounds ∧
        (usersInv db → usersInv dbB) ∧
        dbB.bids.map Bid.id = db.bids.map Bid.id ∧
        (∀ k, ¬ bid.id = k → findBid dbB k = findBid db k) ∧
        (∀ c, findBid db bid.id = some c → c.status ≠ BidStatus.won →
          ∃ c', findBid dbB bid.id = some c' ∧ c'.status ≠ BidStatus.won)) ∧
        processLosersLoop round isLast now rest dbB = .ok db₂ := by
      split at h
      · rw [exceptBind_ok] at h
        obtain ⟨dbB, hB, h⟩ := h
        exact ⟨dbB, refundBid_spec hB, h⟩
      · rw [exceptBind_ok] at h
        obtain ⟨dbB, hB, h⟩ := h
        have := Except.ok.inj hB
        subst this
        refine ⟨carryOverLoser db bid round.roundNumber now,
          ⟨rfl, id, ?_, ?_, ?_⟩, h⟩
        · exact bidIds_updateBid db _
        · intro k hk
          exact find?_replace_ne Bid.id db.bids k _ hk
        · intro c hc _
          have hcid : c.id = bid.id := by
            have := List.find?_some hc
            exact Nat.eq_of_beq_eq_true (by simpa using this)
          refine ⟨_, find?_replace_eq Bid.id db.bids bid.id c _ hc
            hcid.symm, ?_⟩
          intro hw
          exact BidStatus.noConfusion
            (hw : BidStatus.carried_over = BidStatus.won)
    obtain ⟨dbB, ⟨hSr, hSu, hSids, hSframe, hSsafe⟩, h⟩ := key
    obtain ⟨ihr, ihu, ihids, ihframe, ihsafe⟩ := ih dbB db₂ h
    refine ⟨?_, ?_, ?_, ?_, ?_⟩
    · rw [ihr, hSr]
    · intro hinv
      exact ihu (hSu hinv)
    · rw [ihids, hSids]
    · intro k hk
      simp only [List.map_cons, List.mem_cons, not_or] at hk
      rw [ihframe k hk.2, hSframe k (fun he => hk.1 he.symm)]
    · intro hnd hsafe b hb
      simp only [List.map_cons, List.nodup_cons] at hnd
      rcases List.mem_cons.mp hb with hb | hb
      · subst hb
        obtain ⟨c, hc, hcs⟩ := hsafe b (List.mem_cons_self b rest)
        obtain ⟨c', hc', hcs'⟩ := hSsafe c hc hcs
        refine ⟨c', ?_, hcs'⟩
        rw [ihframe b.id hnd.1]
        exact hc'
      · refine ihsafe hnd.2 ?_ b hb
        intro b' hb'
        have hne : ¬ bid.id = b'.id := by
          intro he
          exact hnd.1 (he ▸ List.mem_map_of_mem Bid.id hb')
        obtain ⟨c, hc, hcs⟩ := hsafe b' (List.mem_cons_of_mem bid hb')
        exact ⟨c, by rw [hSframe b'.id hne]; exact hc, hcs⟩

theorem roundSave_ok {r r' : Round} (h : roundSave r = .ok r') : r' = r := by
  unfold roundSave at h
  split at h
  · exact absurd h (fun hh => Except.noConfusion hh)
  · split at h
    all_goals
      first
      | exact (Except.ok.inj h).symm
      | (split at h <;>
          first
          | exact absurd h (fun hh => Except.noConfusion hh)
          | exact (Except.ok.inj h).symm)

theorem completeRound_ok {db db₂ : DB} {roundId : Nat} {now : Int}
    (h : completeRound db roundId now = .ok db₂) :
    ∃ round auction db', findRound db roundId = some round ∧
      round.status = RoundStatus.active ∧
      findAuction db round.auctionId = some auction ∧
      processWinners round auction db now = .ok db' ∧
      db₂ = updateRound db' { round with
        status := RoundStatus.completed
        actualEndTime := some now
        winnersProcessed := true } := by
  unfold completeRound at h
  split at h
  · exact absurd h (fun hh => Except.noConfusion hh)
  · rename_i round hfr
    split at h
    · exact absurd h (fun hh => Except.noConfusion hh)
    · rename_i hstat
      split at h
      · exact absurd h (fun hh => Except.noConfusion hh)
      · rename_i auction hfa
        rw [exceptBind_ok] at h
        obtain ⟨db', hpw, h⟩ := h
        rw [exceptBind_ok] at h
        obtain ⟨round'', hrs, h⟩ := h
        have hr := roundSave_ok hrs
        subst hr
        exact ⟨round, auction, db', hfr, not_not.mp hstat, hfa, hpw,
          (Except.ok.inj h).symm⟩

theorem processWinners_spec {round : Round} {auction : Auction}
    {db db₂ : DB} {now : Int} {sorted : List Bid} {wc start : Nat}
    (h : processWinners round auction db now = .ok db₂)
    (hsorted : sorted = (roundActiveBids db round).insertionSort bidOrder)
    (hwc : wc = min round.itemsInRound sorted.length)
    (hstart : start = calculateStartItemNumber round.roundNumber
      auction.itemsPerRound) :
    db₂.rounds = db.rounds ∧
    (usersInv db → usersInv db₂) ∧
    ((db.bids.map Bid.id).Nodup →
      (∀ j (hj : j < (sorted.take wc).length),
        findBid db₂ ((sorted.take wc).get ⟨j, hj⟩).id =
          some (markWon ((sorted.take wc).get ⟨j, hj⟩) (start + j)
            round.roundNumber (j + 1) now)) ∧
      (∀ b ∈ sorted.drop wc, ∃ c, findBid db₂ b.id = some c ∧
        c.status ≠ BidStatus.won) ∧
      (∀ k, k ∉ sorted.map Bid.id → findBid db₂ k = findBid db k)) := by
  subst hsorted
  subst hwc
  subst hstart
  simp only [processWinners] at h
  rw [exceptBind_ok] at h
  obtain ⟨dbW, hW, hL⟩ := h
  obtain ⟨wRounds, wInv, wIds, wFrame, wMark⟩ :=
    processWinnersLoop_spec _ 0 db dbW hW
  obtain ⟨lRounds, lInv, lIds, lFrame, lSafe⟩ :=
    processLosersLoop_spec _ dbW db₂ hL
  refine ⟨by rw [lRounds, wRounds], fun hi => lInv (wInv hi), ?_⟩
  intro hnd
  have permS : ((roundActiveBids db round).insertionSort bidOrder).Perm
      (roundActiveBids db round) := List.perm_insertionSort bidOrder _
  have hsub : (roundActiveBids db round).Sublist db.bids :=
    List.filter_sublist _
  have idsActive : ((roundActiveBids db round).map Bid.id).Nodup :=
    List.Nodup.sublist (hsub.map Bid.id) hnd
  have idsSorted :
      (((roundActiveBids db round).insertionSort bidOrder).map
        Bid.id).Nodup :=
    ((permS.map Bid.id).nodup_iff).mpr idsActive
  set sorted := (roundActiveBids db round).insertionSort bidOrder with hs
  set wc := min round.itemsInRound sorted.length with hw
  have idsEq : sorted.map Bid.id =
      (sorted.take wc).map Bid.id ++ (sorted.drop wc).map Bid.id := by
    rw [← List.map_append, List.take_append_drop]
  have hnodapp : ((sorted.take wc).map Bid.id ++
      (sorted.drop wc).map Bid.id).Nodup := idsEq ▸ idsSorted
  obtain ⟨ndW, ndL, disj⟩ := List.nodup_append.mp hnodapp
  have memSorted_find : ∀ b ∈ sorted, findBid db b.id = some b := by
    intro b hb
    have hmem : b ∈ db.bids := hsub.subset (permS.mem_iff.mp hb)
    exact find?_self_of_nodup Bid.id db.bids b hnd hmem
  refine ⟨?_, ?_, ?_⟩
  · intro j hj
    have hmem : (sorted.take wc).get ⟨j, hj⟩ ∈ sorted.take wc :=
      List.get_mem _ _ _
    have hidW : ((sorted.take wc).get ⟨j, hj⟩).id ∈
        (sorted.take wc).map Bid.id := List.mem_map_of_mem _ hmem
    have hidL : ((sorted.take wc).get ⟨j, hj⟩).id ∉
        (sorted.drop wc).map Bid.id := disj hidW
    rw [lFrame _ hidL]
    have hWsome : ∀ b ∈ sorted.take wc, (findBid db b.id).isSome := by
      intro b hb
      rw [memSorted_find b (List.take_subset wc sorted hb)]
      rfl
    have := wMark ndW hWsome j hj
    simpa using this
  · intro b hb
    refine lSafe ndL ?_ b hb
    intro b' hb'
    have hidL' : b'.id ∈ (sorted.drop wc).map Bid.id :=
      List.mem_map_of_mem _ hb'
    have hidW' : b'.id ∉ (sorted.take wc).map Bid.id :=
      fun hm => disj hm hidL'
    have hbmem : b' ∈ sorted := List.drop_subset wc sorted hb'
    refine ⟨b', ?_, ?_⟩
    · rw [wFrame b'.id hidW']
      exact memSorted_find b' hbmem
    · have hact : b' ∈ roundActiveBids db round := permS.mem_iff.mp hbmem
      have := (List.mem_filter.mp hact).2
      have hstat : b'.status = BidStatus.active := by
        simp only [Bool.and_eq_true, beq_iff_eq] at this
        exact this.2
      rw [hstat]
      intro hw'
      exact BidStatus.noConfusion (hw' : BidStatus.active = BidStatus.won)
  · intro k hk
    have hkW : k ∉ (sorted.take wc).map Bid.id := fun hm =>
      hk (by rw [idsEq]; exact List.mem_append_left _ hm)
    have hkL : k ∉ (sorted.drop wc).map Bid.id := fun hm =>
      hk (by rw [idsEq]; exact List.mem_append_right _ hm)
    rw [lFrame k hkL, wFrame k hkW]

/-! ### Claim C4: winner selection -/
/-- C4. For every round completion, the bids marked `won` are exactly the
top `min(itemsInRound, |bids|)` of the round's active bids under the order
(amount descending, `createdAt` ascending): the sort produced by
`processWinners` is a sorted permutation of the round's active bids, the
first `wc` of it are marked won, every remaining bid of the round ends up
with a status other than `won`, bids outside the round are untouched, and
the `i`-th winner (0-based) receives item number
`(roundNumber − 1) × itemsPerRound + 1 + i` with `wonPosition = i + 1`. -/
theorem c4_winner_selection {db db₂ : DB} {roundId : Nat} {now : Int}
    {round : Round} {auction : Auction} (sorted : List Bid) (wc : Nat)
    (hfr : findRound db roundId = some round)
    (hfa : findAuction db round.auctionId = some auction)
    (hnd : (db.bids.map Bid.id).Nodup)
    (h : completeRound db roundId now = .ok db₂)
    (hsorted : sorted = (roundActiveBids db round).insertionSort bidOrder)
    (hwc : wc = min round.itemsInRound sorted.length) :
    sorted.Perm (roundActiveBids db round) ∧
    sorted.Sorted bidOrder ∧
    (∀ j (hj : j < (sorted.take wc).length),
      findBid db₂ ((sorted.take wc).get ⟨j, hj⟩).id =
        some (markWon ((sorted.take wc).get ⟨j, hj⟩)
          ((round.roundNumber - 1) * auction.itemsPerRound + 1 + j)
          round.roundNumber (j + 1) now)) ∧
    (∀ b ∈ sorted.drop wc, ∃ c, findBid db₂ b.id = some c ∧
      c.status ≠ BidStatus.won) ∧
    (∀ k, k ∉ sorted.map Bid.id → findBid db₂ k = findBid db k) := by
  obtain ⟨round₀, auction₀, db', hfr₀, hstat₀, hfa₀, hpw, hdb₂⟩ :=
    completeRound_ok h
  have hr : round₀ = round := Option.some.inj (hfr₀.symm.trans hfr)
  subst hr
  have ha : auction₀ = auction := Option.some.inj (hfa₀.symm.trans hfa)
  subst ha
  obtain ⟨-, -, hmain⟩ := processWinners_spec hpw hsorted hwc rfl
  obtain ⟨hmark, hsafe, hframe⟩ := hmain hnd
  subst hdb₂
  refine ⟨hsorted ▸ List.perm_insertionSort bidOrder _,
    hsorted ▸ List.sorted_insertionSort bidOrder _, ?_, ?_, ?_⟩
  · intro j hj
    exact hmark j hj
  · intro b hb
    exact hsafe b hb
  · intro k hk
    exact hframe k hk

/-- Witness for C4 at the concrete store: the earlier equal bid wins item 1
at position 1, the later one does not end up `won`. -/
theorem c4_winner_selection_witness :
    findBid c4db' 2 = some (markWon c4bidB 1 1 1 3700000) ∧
    (∃ c, findBid c4db' 1 = some c ∧ c.status ≠ BidStatus.won) := by
  have H := @c4_winner_selection c4db c4db' 1 3700000 c4round c4auction
    ((roundActiveBids c4db c4round).insertionSort bidOrder)
    (min c4round.itemsInRound
      ((roundActiveBids c4db c4round).insertionSort bidOrder).length)
    rfl rfl (by decide) (by rfl) rfl rfl
  refine ⟨?_, ?_⟩
  · exact H.2.2.1 0 (by decide)
  · exact H.2.2.2.1 c4bidA (by decide)

/-! ### Claim C9: idempotence of completeRound -/
/-- C9. Calling `completeRound` a second time on a round that has already
been completed changes nothing: the first successful call leaves the
round with status `completed` (and `winnersProcessed = true`), so the
second call fails its `status = active` guard with a Conflict and, the
transaction aborting, commits nothing — the WonItems and balances stay
exactly as after the first call. -/
theorem c9_completeRound_idempotent {db db' : DB} {roundId : Nat}
    {now now₂ : Int}
    (h : completeRound db roundId now = .ok db') :
    completeRound db' roundId now₂ = .error .conflict ∧
    runCompleteRound db' roundId now₂ = db' := by
  obtain ⟨round, auction, db₁, hfr, hstat, hfa, hpw, hdb'⟩ :=
    completeRound_ok h
  obtain ⟨hrounds, -, -⟩ := processWinners_spec hpw rfl rfl rfl
  have hfr₁ : findRound db₁ roundId = some round := by
    unfold findRound at hfr ⊢
    rw [hrounds]
    exact hfr
  have hfr' : findRound db' roundId = some { round with
      status := RoundStatus.completed
      actualEndTime := some now
      winnersProcessed := true } := by
    subst hdb'
    exact findRound_update_self hfr₁ rfl
  have hconf : completeRound db' roundId now₂ = .error .conflict := by
    simp only [completeRound, hfr']
    rw [if_pos (by decide : RoundStatus.completed ≠ RoundStatus.active)]
  refine ⟨hconf, ?_⟩
  unfold runCompleteRound
  rw [hconf]

/-- Witness for C9: after completing the concrete one-item round, a second
`completeRound` is rejected with a Conflict and the store is unchanged. -/
theorem c9_completeRound_idempotent_witness :
    completeRound c4db' 1 9999999 = .error .conflict ∧
    runCompleteRound c4db' 1 9999999 = c4db' :=
  @c9_completeRound_idempotent c4db c4db' 1 3700000 9999999 (by rfl)

/-! ### Claim C5: the ledger invariant -/
theorem exceptMap_ok {ε α β : Type} (x : Except ε α) (f : α → β) (b : β) :
    x.map f = .ok b ↔ ∃ a, x = .ok a ∧ f a = b := by
  cases x <;> simp [Except.map]

theorem extendRound_users {db : DB} {rid e : Nat} {now : Int} {r : Round}
    {db₂ : DB} (h : extendRound db rid e now = .ok (r, db₂)) :
    db₂.users = db.users := by
  unfold extendRound at h
  split at h
  · exact absurd h (fun hh => Except.noConfusion hh)
  · split at h
    · exact absurd h (fun hh => Except.noConfusion hh)
    · split at h
      · injection (Except.ok.inj h) with h1 h2
        subst h2
        rfl
      · rw [exceptBind_ok] at h
        obtain ⟨r', -, h⟩ := h
        rw [exceptBind_ok] at h
        obtain ⟨r'', -, h⟩ := h
        injection (Except.ok.inj h) with h1 h2
        subst h2
        rfl

theorem checkAntiSnipeE_users {db : DB} {rid w e : Nat} {m : Option Nat}
    {now : Int} {b : Bool} {db₂ : DB}
    (h : checkAntiSnipeE db rid w e m now = .ok (b, db₂)) :
    db₂.users = db.users := by
  unfold checkAntiSnipeE at h
  split at h
  · exact absurd h (fun hh => Except.noConfusion hh)
  · split at h
    · injection (Except.ok.inj h) with h1 h2
      subst h2
      rfl
    · split at h
      · injection (Except.ok.inj h) with h1 h2
        subst h2
        rfl
      · split at h
        · injection (Except.ok.inj h) with h1 h2
          subst h2
          rfl
        · rw [exceptBind_ok] at h
          obtain ⟨p, hext, h⟩ := h
          obtain ⟨r', dbE⟩ := p
          injection (Except.ok.inj h) with h1 h2
          subst h2
          exact extendRound_users hext

theorem antiSnipeStep_users {aid : Nat} {now : Int} {db₁ : DB} {b : Bool}
    {db₂ : DB} (h : antiSnipeStep aid now db₁ = .ok (b, db₂)) :
    db₂.users = db₁.users := by
  unfold antiSnipeStep at h
  split at h
  · exact checkAntiSnipeE_users h
  · injection (Except.ok.inj h) with h1 h2
    subst h2
    rfl

theorem placeBidTx_inv {db db₂ : DB} {aid uid nid : Nat} {amt : Rat}
    {now : Int} {bid : Bid}
    (h : placeBidTx db aid uid amt nid now = .ok (bid, db₂))
    (hinv : usersInv db) : usersInv db₂ := by
  unfold placeBidTx at h
  rw [exceptBind_ok] at h
  obtain ⟨u0, -, h⟩ := h
  split at h
  · exact absurd h (fun hh => Except.noConfusion hh)
  · split at h
    · exact absurd h (fun hh => Except.noConfusion hh)
    · split at h
      · exact absurd h (fun hh => Except.noConfusion hh)
      · split at h
        · exact absurd h (fun hh => Except.noConfusion hh)
        · split at h
          · exact absurd h (fun hh => Except.noConfusion hh)
          · split at h
            · exact absurd h (fun hh => Except.noConfusion hh)
            · split at h
              · exact absurd h (fun hh => Except.noConfusion hh)
              · rw [exceptBind_ok] at h
                obtain ⟨user', hsave, h⟩ := h
                obtain ⟨hEq, hInv⟩ := userSave_ok hsave
                injection (Except.ok.inj h) with h1 h2
                subst h2
                exact usersInv_update hinv (hEq ▸ hInv)

theorem placeBid_inv {db db₂ : DB} {aid uid nid : Nat} {amt : Rat}
    {now : Int} {bid : Bid}
    (h : placeBid db aid uid amt nid now = .ok (bid, db₂))
    (hinv : usersInv db) : usersInv db₂ := by
  unfold placeBid placeBidWith at h
  rw [exceptBind_ok] at h
  obtain ⟨p, htx, h⟩ := h
  obtain ⟨bid₀, db₁⟩ := p
  dsimp only at h
  have hinv₁ := placeBidTx_inv htx hinv
  cases has : antiSnipeStep aid now db₁ with
  | ok q =>
    obtain ⟨bb, db₃⟩ := q
    rw [has] at h
    dsimp only at h
    injection (Except.ok.inj h) with h1 h2
    subst h2
    exact usersInv_of_users_eq (antiSnipeStep_users has) hinv₁
  | error e =>
    rw [has] at h
    dsimp only at h
    injection (Except.ok.inj h) with h1 h2
    subst h2
    exact hinv₁

theorem increaseBid_inv {db db₂ : DB} {bidId uid : Nat} {amt : Rat}
    {now : Int} {bid : Bid}
    (h : increaseBid db bidId uid amt now = .ok (bid, db₂))
    (hinv : usersInv db) : usersInv db₂ := by
  unfold increaseBid at h
  rw [exceptBind_ok] at h
  obtain ⟨u0, -, h⟩ := h
  repeat
    first
    | exact absurd h (fun hh => Except.noConfusion hh)
    | split at h
    | dsimp only at h
  rw [exceptBind_ok] at h
  obtain ⟨user', hsave, h⟩ := h
  obtain ⟨hEq, hInv⟩ := userSave_ok hsave
  injection (Except.ok.inj h) with h1 h2
  subst h2
  exact usersInv_update hinv (hEq ▸ hInv)

theorem cancelBid_inv {db db₂ : DB} {bidId uid : Nat} {now : Int}
    {bid : Bid} (h : cancelBid db bidId uid now = .ok (bid, db₂))
    (hinv : usersInv db) : usersInv db₂ := by
  unfold cancelBid at h
  repeat
    first
    | exact absurd h (fun hh => Except.noConfusion hh)
    | split at h
    | dsimp only at h
  rw [exceptBind_ok] at h
  obtain ⟨user', hsave, h⟩ := h
  obtain ⟨hEq, hInv⟩ := userSave_ok hsave
  injection (Except.ok.inj h) with h1 h2
  subst h2
  exact usersInv_update hinv (hEq ▸ hInv)

theorem deposit_inv {db db₂ : DB} {uid : Nat} {amt : Rat} {u : User}
    (h : deposit db uid amt = .ok (u, db₂)) (hinv : usersInv db) :
    usersInv db₂ := by
  unfold deposit at h
  rw [exceptBind_ok] at h
  obtain ⟨u0, -, h⟩ := h
  split at h
  · exact absurd h (fun hh => Except.noConfusion hh)
  · rw [exceptBind_ok] at h
    obtain ⟨user', hsave, h⟩ := h
    obtain ⟨hEq, hInv⟩ := userSave_ok hsave
    injection (Except.ok.inj h) with h1 h2
    subst h2
    exact usersInv_update hinv (hEq ▸ hInv)

theorem withdraw_inv {db db₂ : DB} {uid : Nat} {amt : Rat} {u : User}
    (h : withdraw db uid amt = .ok (u, db₂)) (hinv : usersInv db) :
    usersInv db₂ := by
  unfold withdraw at h
  rw [exceptBind_ok] at h
  obtain ⟨u0, -, h⟩ := h
  split at h
  · exact absurd h (fun hh => Except.noConfusion hh)
  · split at h
    · exact absurd h (fun hh => Except.noConfusion hh)
    · rw [exceptBind_ok] at h
      obtain ⟨user', hsave, h⟩ := h
      obtain ⟨hEq, hInv⟩ := userSave_ok hsave
      injection (Except.ok.inj h) with h1 h2
      subst h2
      exact usersInv_update hinv (hEq ▸ hInv)

theorem completeRound_inv {db db₂ : DB} {roundId : Nat} {now : Int}
    (h : completeRound db roundId now = .ok db₂) (hinv : usersInv db) :
    usersInv db₂ := by
  obtain ⟨round, auction, db', hfr, hstat, hfa, hpw, hdb₂⟩ :=
    completeRound_ok h
  obtain ⟨-, hi, -⟩ := processWinners_spec hpw rfl rfl rfl
  subst hdb₂
  exact hi hinv

/-- C5. After every successfully committed operation — `placeBid`,
`increaseBid`, `cancelBid`, `completeRound` winner/loser processing,
deposits and withdrawals — every user of the store satisfies
`0 ≤ reservedBalance ≤ balance`; every user write flows through the
`User` save validation, and an operation that would violate the invariant
fails its transaction and commits nothing (its `Except` result is an
error carrying no state). -/
theorem c5_ledger_invariant {db db' : DB} {now : Int} {op : Op}
    (hinv : usersInv db) (h : step db now op = .ok db') :
    usersInv db' := by
  cases op with
  | placeBid a u amt nid =>
    rw [step, exceptMap_ok] at h
    obtain ⟨⟨bid, db₂⟩, hp, h2⟩ := h
    exact h2 ▸ placeBid_inv hp hinv
  | increaseBid b u amt =>
    rw [step, exceptMap_ok] at h
    obtain ⟨⟨bid, db₂⟩, hp, h2⟩ := h
    exact h2 ▸ increaseBid_inv hp hinv
  | cancelBid b u =>
    rw [step, exceptMap_ok] at h
    obtain ⟨⟨bid, db₂⟩, hp, h2⟩ := h
    exact h2 ▸ cancelBid_inv hp hinv
  | completeRound r =>
    rw [step] at h
    exact completeRound_inv h hinv
  | deposit u amt =>
    rw [step, exceptMap_ok] at h
    obtain ⟨⟨user, db₂⟩, hp, h2⟩ := h
    exact h2 ▸ deposit_inv hp hinv
  | withdraw u amt =>
    rw [step, exceptMap_ok] at h
    obtain ⟨⟨user, db₂⟩, hp, h2⟩ := h
    exact h2 ▸ withdraw_inv hp hinv

/-- Witness for C5: a concrete committed deposit preserves the ledger
invariant. -/
theorem c5_ledger_invariant_witness : usersInv c5db' :=
  @c5_ledger_invariant c5db c5db' 0 (.deposit 1 100)
    (by
      intro u hu
      simp only [c5db, List.mem_singleton] at hu
      subst hu
      exact ⟨by norm_num, by norm_num⟩)
    (by rfl)

/-! ### Claim C7: anti-snipe extension -/
theorem canExtend_some_iff (r : Round) (m : Nat) :
    r.canExtend (some m) = true ↔
      r.status = RoundStatus.active ∧ r.extensionsCount < m := by
  unfold Round.canExtend Round.isActive
  by_cases hs : r.status = RoundStatus.active
  · by_cases hm : r.extensionsCount ≥ m
    · simp [hs, hm]
    · simp only [hs]
      simp [hm]
      omega
  · simp [hs]

theorem isInAntiSnipeWindow_iff (t e : Int) (w : Nat) :
    isInAntiSnipeWindow t e w = true ↔
      e - t ≤ (w : Int) * 1000 ∧ 0 < e - t := by
  unfold isInAntiSnipeWindow
  simp

/-- C7. The anti-snipe check after a bid: with `Δ = actualEndTime − now`
(in ms, the configured window in seconds), if `Δ ≤ 0`, or the round is not
active, or `Δ` exceeds the anti-snipe window, or `extensionsCount` has
reached `maxExtensions`, then nothing changes and the check reports
`false`; otherwise `actualEndTime` grows by exactly `antiSnipeExtension`
seconds, `extensionsCount` by exactly 1, and `lastExtensionAt` is set to
`now` — hence a round whose `extensionsCount` is at most `maxExtensions`
still satisfies that bound afterwards. -/
theorem c7_anti_snipe {db : DB} {roundId : Nat} {now : Int} {round : Round}
    {auction : Auction} {endT : Int} {m : Nat}
    (hround : findRound db roundId = some round)
    (hauction : findAuction db round.auctionId = some auction)
    (hend : round.actualEndTime = some endT)
    (hmax : auction.maxExtensions = some m)
    (hsched : round.scheduledStartTime < round.scheduledEndTime)
    (hstart : ∀ s ∈ round.actualStartTime,
      s < endT + (auction.antiSnipeExtension : Int) * 1000) :
    ((endT - now ≤ 0 ∨ round.status ≠ RoundStatus.active ∨
        (auction.antiSnipeWindow : Int) * 1000 < endT - now ∨
        m ≤ round.extensionsCount) →
      checkAntiSnipe db roundId auction.antiSnipeWindow
        auction.antiSnipeExtension auction.maxExtensions now = (false, db)) ∧
    (¬ (endT - now ≤ 0 ∨ round.status ≠ RoundStatus.active ∨
        (auction.antiSnipeWindow : Int) * 1000 < endT - now ∨
        m ≤ round.extensionsCount) →
      checkAntiSnipe db roundId auction.antiSnipeWindow
        auction.antiSnipeExtension auction.maxExtensions now =
        (true, updateRound db { round with
          actualEndTime :=
            some (endT + (auction.antiSnipeExtension : Int) * 1000)
          extensionsCount := round.extensionsCount + 1
          lastExtensionAt := some now })) ∧
    (round.extensionsCount ≤ m →
      ∀ r', findRound (checkAntiSnipe db roundId auction.antiSnipeWindow
          auction.antiSnipeExtension auction.maxExtensions now).2 roundId =
        some r' → r'.extensionsCount ≤ m) := by
  rw [hmax]
  by_cases hwin :
      isInAntiSnipeWindow now endT auction.antiSnipeWindow = true
  · by_cases hext : round.canExtend (some m) = true
    · -- the extension path
      obtain ⟨hact, hcnt⟩ := (canExtend_some_iff round m).mp hext
      obtain ⟨hle, hpos⟩ := (isInAntiSnipeWindow_iff _ _ _).mp hwin
      have hE : checkAntiSnipeE db roundId auction.antiSnipeWindow
          auction.antiSnipeExtension (some m) now =
          .ok (true, updateRound db { round with
            actualEndTime :=
              some (endT + (auction.antiSnipeExtension : Int) * 1000)
            extensionsCount := round.extensionsCount + 1
            lastExtensionAt := some now }) := by
        simp only [checkAntiSnipeE, hround, hend]
        rw [if_neg (by simpa using hwin), if_neg (by simpa using hext)]
        have hcanA : round.canExtend auction.maxExtensions = true := by
          rw [hmax]
          exact hext
        simp only [extendRound, hround, hauction]
        rw [if_neg (by simpa using hcanA)]
        simp only [Round.extend, hend]
        have hsave : roundSave { round with
            actualEndTime :=
              some (endT + (auction.antiSnipeExtension : Int) * 1000)
            extensionsCount := round.extensionsCount + 1
            lastExtensionAt := some now } = .ok { round with
            actualEndTime :=
              some (endT + (auction.antiSnipeExtension : Int) * 1000)
            extensionsCount := round.extensionsCount + 1
            lastExtensionAt := some now } := by
          unfold roundSave
          rw [if_neg (by simpa using hsched)]
          cases hs : round.actualStartTime with
          | none => rfl
          | some s =>
            have := hstart s (by rw [hs]; rfl)
            simp only []
            rw [if_neg (by omega)]
        rw [exceptBind_ok]
        refine ⟨({ round with
            actualEndTime :=
              some (endT + (auction.antiSnipeExtension : Int) * 1000)
            extensionsCount := round.extensionsCount + 1
            lastExtensionAt := some now },
          updateRound db { round with
            actualEndTime :=
              some (endT + (auction.antiSnipeExtension : Int) * 1000)
            extensionsCount := round.extensionsCount + 1
            lastExtensionAt := some now }), ?_, rfl⟩
        rw [exceptBind_ok]
        refine ⟨_, rfl, ?_⟩
        rw [exceptBind_ok]
        exact ⟨_, hsave, rfl⟩
      have hrun : checkAntiSnipe db roundId auction.antiSnipeWindow
          auction.antiSnipeExtension (some m) now =
          (true, updateRound db { round with
            actualEndTime :=
              some (endT + (auction.antiSnipeExtension : Int) * 1000)
            extensionsCount := round.extensionsCount + 1
            lastExtensionAt := some now }) := by
        unfold checkAntiSnipe
        rw [hE]
      refine ⟨fun hc => absurd ?_ (not_not.mpr hc), fun _ => hrun, ?_⟩
      · push_neg
        exact ⟨by omega, hact, by omega, by omega⟩
      · intro hb r' hr'
        rw [hrun] at hr'
        have : findRound (updateRound db { round with
            actualEndTime :=
              some (endT + (auction.antiSnipeExtension : Int) * 1000)
            extensionsCount := round.extensionsCount + 1
            lastExtensionAt := some now }) roundId = some { round with
            actualEndTime :=
              some (endT + (auction.antiSnipeExtension : Int) * 1000)
            extensionsCount := round.extensionsCount + 1
            lastExtensionAt := some now } :=
          findRound_update_self hround rfl
        rw [this] at hr'
        have := Option.some.inj hr'
        subst this
        simpa using hcnt
    · -- canExtend fails: no-op
      have hE : checkAntiSnipeE db roundId auction.antiSnipeWindow
          auction.antiSnipeExtension (some m) now = .ok (false, db) := by
        simp only [checkAntiSnipeE, hround, hend]
        rw [if_neg (by simpa using hwin), if_pos (by simpa using hext)]
      have hrun : checkAntiSnipe db roundId auction.antiSnipeWindow
          auction.antiSnipeExtension (some m) now = (false, db) := by
        unfold checkAntiSnipe
        rw [hE]
      have hc : round.status ≠ RoundStatus.active ∨
          m ≤ round.extensionsCount := by
        by_contra hcon
        push_neg at hcon
        exact hext ((canExtend_some_iff round m).mpr ⟨hcon.1, by omega⟩)
      refine ⟨fun _ => hrun, fun hnc => absurd ?_ hnc, ?_⟩
      · rcases hc with hc | hc
        · exact Or.inr (Or.inl hc)
        · exact Or.inr (Or.inr (Or.inr hc))
      · intro hb r' hr'
        rw [hrun] at hr'
        have := Option.some.inj (hround.symm.trans hr')
        subst this
        exact hb
  · -- outside the window: no-op
    have hE : checkAntiSnipeE db roundId auction.antiSnipeWindow
        auction.antiSnipeExtension (some m) now = .ok (false, db) := by
      simp only [checkAntiSnipeE, hround, hend]
      rw [if_pos (by simpa using hwin)]
    have hrun : checkAntiSnipe db roundId auction.antiSnipeWindow
        auction.antiSnipeExtension (some m) now = (false, db) := by
      unfold checkAntiSnipe
      rw [hE]
    have hc : endT - now ≤ 0 ∨
        (auction.antiSnipeWindow : Int) * 1000 < endT - now := by
      by_contra hcon
      push_neg at hcon
      exact hwin ((isInAntiSnipeWindow_iff _ _ _).mpr ⟨hcon.2, by omega⟩)
    refine ⟨fun _ => hrun, fun hnc => absurd ?_ hnc, ?_⟩
    · rcases hc with hc | hc
      · exact Or.inl hc
      · exact Or.inr (Or.inr (Or.inl hc))
    · intro hb r' hr'
      rw [hrun] at hr'
      have := Option.some.inj (hround.symm.trans hr')
      subst this
      exact hb

/-- Witness for C7: a bid 30 s before the end extends the round by exactly
60 s and bumps `extensionsCount` to 1. -/
theorem c7_anti_snipe_witness :
    checkAntiSnipe c7db 1 60 60 (some 3) 70000 =
      (true, updateRound c7db { c7round with
        actualEndTime := some 160000
        extensionsCount := 1
        lastExtensionAt := some 70000 }) := by
  have H := @c7_anti_snipe c7db 1 70000 c7round c7auction 100000 3
    rfl rfl rfl rfl (by norm_num [c7round])
    (by
      intro s hs
      simp [c7round] at hs
      subst hs
      norm_num [c7auction])
  exact H.2.1 (by decide)

/-! ### Claim C8: increaseBid minimum step -/
theorem exceptBind_ok_left {ε α β : Type} (a : α) (f : α → Except ε β) :
    ((.ok a : Except ε α) >>= f) = f a := rfl

theorem userSave_error {u : User} {e : Err} (h : userSave u = .error e) :
    e = .validation := by
  unfold userSave at h
  split_ifs at h <;>
    first
    | exact (Except.error.inj h).symm
    | exact absurd h (fun hh => Except.noConfusion hh)

/-- C8. For an active bid of amount `a` on an auction with step `s`
percent, `increaseBid(newAmount)` fails with `BidTooLow` exactly when
`newAmount` is below `a × (1 + s/100)` rounded to two decimals
(`calculateMinNextBid`); on success the bid's amount becomes `newAmount`
and the user's reserved balance grows by exactly `newAmount − a` while the
balance stays put. -/
theorem c8_increase_bid_step {db : DB} {bidId uid : Nat} {newAmount : Rat}
    {now : Int} {bid : Bid} {auction : Auction} {user : User}
    (hbid : findBid db bidId = some bid)
    (howner : bid.userId = uid)
    (hstatus : bid.status = BidStatus.active)
    (hauction : findAuction db bid.auctionId = some auction)
    (huser : findUser db uid = some user)
    (hval : ¬ newAmount < 1 / 100) :
    (increaseBid db bidId uid newAmount now = .error .bidTooLow ↔
      newAmount < calculateMinNextBid bid.amount auction.minBidStep) ∧
    (∀ bid' db', increaseBid db bidId uid newAmount now = .ok (bid', db') →
      bid'.amount = newAmount ∧
      ∃ u', findUser db' uid = some u' ∧
        u'.reservedBalance =
          user.reservedBalance + (newAmount - bid.amount) ∧
        u'.balance = user.balance) := by
  have hkey : increaseBid db bidId uid newAmount now =
      (if newAmount < calculateMinNextBid bid.amount auction.minBidStep then
        (.error .bidTooLow : Except Err (Bid × DB))
      else if ¬ user.hasAvailableBalance (newAmount - bid.amount) = true then
        .error .insufficientFunds
      else do
        let user' ← userSave { user with
          reservedBalance := user.reservedBalance + (newAmount - bid.amount) }
        let db₁ := updateUser db user'
        let bid' := { bid with
          amount := newAmount
          history := bid.history ++
            [⟨.increased, newAmount, bid.currentRound, now,
              some bid.amount⟩] }
        let db₂ := updateBid db₁ bid'
        let db₃ := addTx db₂ ⟨uid, .bid_increased, newAmount - bid.amount,
          some bid.auctionId, some bid.id, user.balance, user'.balance⟩
        .ok (bid', db₃)) := by
    simp only [increaseBid, validateAmount]
    rw [if_neg hval, exceptBind_ok_left]
    simp only [hbid, hauction, huser]
    rw [if_neg (by simp [howner] : ¬ bid.userId ≠ uid)]
    rw [if_neg (by simp [Bid.canIncrease, hstatus] :
      ¬ (¬ bid.canIncrease = true))]
  constructor
  · rw [hkey]
    by_cases hmin :
        newAmount < calculateMinNextBid bid.amount auction.minBidStep
    · rw [if_pos hmin]
      simp [hmin]
    · rw [if_neg hmin]
      constructor
      · intro hcontra
        exfalso
        by_cases havail :
            ¬ user.hasAvailableBalance (newAmount - bid.amount) = true
        · rw [if_pos havail] at hcontra
          exact Err.noConfusion (Except.error.inj hcontra)
        · rw [if_neg havail] at hcontra
          cases hsave : userSave { user with
              reservedBalance :=
                user.reservedBalance + (newAmount - bid.amount) } with
          | error e =>
            rw [hsave] at hcontra
            have he := userSave_error hsave
            subst he
            exact Err.noConfusion (Except.error.inj hcontra)
          | ok u' =>
            rw [hsave] at hcontra
            exact Except.noConfusion hcontra
      · intro hcontra
        exact absurd hcontra hmin
  · intro bid' db' hok
    rw [hkey] at hok
    have hmin :
        ¬ newAmount < calculateMinNextBid bid.amount auction.minBidStep := by
      intro hmin
      rw [if_pos hmin] at hok
      exact Except.noConfusion hok
    rw [if_neg hmin] at hok
    by_cases havail :
        ¬ user.hasAvailableBalance (newAmount - bid.amount) = true
    · rw [if_pos havail] at hok
      exact absurd hok (fun hh => Except.noConfusion hh)
    · rw [if_neg havail] at hok
      rw [exceptBind_ok] at hok
      obtain ⟨user', hsave, hok⟩ := hok
      obtain ⟨hEq, hInv⟩ := userSave_ok hsave
      injection (Except.ok.inj hok) with h1 h2
      subst h1
      subst h2
      refine ⟨rfl, user', ?_, ?_, ?_⟩
      · exact findUser_update_self huser (by rw [hEq])
      · rw [hEq]
      · rw [hEq]

/-- Witness for C8 at `a = 100`, `s = 5`: `newAmount = 104` fails
`BidTooLow`, `newAmount = 105` succeeds, sets the amount to 105 and
reserves exactly 5 more. -/
theorem c8_increase_bid_step_witness :
    increaseBid c8db 1 1 104 99 = .error .bidTooLow ∧
    (c8bid2.amount = 105 ∧
      ∃ u', findUser c8db2 1 = some u' ∧
        u'.reservedBalance =
          c8user.reservedBalance + ((105 : Rat) - c8bid.amount) ∧
        u'.balance = c8user.balance) := by
  have H104 := @c8_increase_bid_step c8db 1 1 104 99 c8bid c8auction
    c8user rfl rfl rfl rfl rfl (by decide)
  have H105 := @c8_increase_bid_step c8db 1 1 105 99 c8bid c8auction
    c8user rfl rfl rfl rfl rfl (by decide)
  exact ⟨H104.1.mpr (by decide), H105.2 c8bid2 c8db2 (by rfl)⟩

/-! ### Claim C3: at most one live bid per (auction, user) -/
theorem exceptBind_error {ε α β : Type} (e : ε) (f : α → Except ε β) :
    ((.error e : Except ε α) >>= f) = .error e := rfl

theorem extendRound_bids {db : DB} {rid e : Nat} {now : Int} {r : Round}
    {db₂ : DB} (h : extendRound db rid e now = .ok (r, db₂)) :
    db₂.bids = db.bids := by
  unfold extendRound at h
  split at h
  · exact absurd h (fun hh => Except.noConfusion hh)
  · split at h
    · exact absurd h (fun hh => Except.noConfusion hh)
    · split at h
      · injection (Except.ok.inj h) with h1 h2
        subst h2
        rfl
      · rw [exceptBind_ok] at h
        obtain ⟨r', -, h⟩ := h
        rw [exceptBind_ok] at h
        obtain ⟨r'', -, h⟩ := h
        injection (Except.ok.inj h) with h1 h2
        subst h2
        rfl

theorem checkAntiSnipeE_bids {db : DB} {rid w e : Nat} {m : Option Nat}
    {now : Int} {b : Bool} {db₂ : DB}
    (h : checkAntiSnipeE db rid w e m now = .ok (b, db₂)) :
    db₂.bids = db.bids := by
  unfold checkAntiSnipeE at h
  split at h
  · exact absurd h (fun hh => Except.noConfusion hh)
  · split at h
    · injection (Except.ok.inj h) with h1 h2
      subst h2
      rfl
    · split at h
      · injection (Except.ok.inj h) with h1 h2
        subst h2
        rfl
      · split at h
        · injection (Except.ok.inj h) with h1 h2
          subst h2
          rfl
        · rw [exceptBind_ok] at h
          obtain ⟨p, hext, h⟩ := h
          obtain ⟨r', dbE⟩ := p
          injection (Except.ok.inj h) with h1 h2
          subst h2
          exact extendRound_bids hext

theorem antiSnipeStep_bids {aid : Nat} {now : Int} {db₁ : DB} {b : Bool}
    {db₂ : DB} (h : antiSnipeStep aid now db₁ = .ok (b, db₂)) :
    db₂.bids = db₁.bids := by
  unfold antiSnipeStep at h
  split at h
  · exact checkAntiSnipeE_bids h
  · injection (Except.ok.inj h) with h1 h2
    subst h2
    rfl

/-- C3, amended. `placeBid` rejects with a Conflict (AlreadyBidding)
exactly those users who already hold a bid with status `active` on the
auction — the guard query filters on `status = active` only, so a
`carried_over` bid does not trigger it (see the counterexample); when the
call succeeds, the new store holds exactly one `active` bid for
`(auctionId, userId)`. -/
theorem c3_place_bid_active_unique {db : DB}
    {auctionId userId newBidId : Nat} {amount : Rat} {now : Int}
    {auction : Auction} {round : Round} {user : User}
    (hau : findAuction db auctionId = some auction)
    (hactive : auction.status = AuctionStatus.active)
    (hround : db.rounds.find? (fun r =>
      r.auctionId == auctionId && r.status == RoundStatus.active) =
      some round)
    (huser : findUser db userId = some user)
    (hmin : ¬ amount < auction.minBid)
    (hval : ¬ amount < 1 / 100) :
    ((∃ b ∈ db.bids, b.auctionId = auctionId ∧ b.userId = userId ∧
        b.status = BidStatus.active) →
      placeBid db auctionId userId amount newBidId now = .error .conflict) ∧
    (∀ bid' db', placeBid db auctionId userId amount newBidId now =
        .ok (bid', db') →
      (db'.bids.filter (fun b => b.auctionId == auctionId &&
        b.userId == userId && b.status == BidStatus.active)).length = 1) := by
  constructor
  · intro hex
    have hfound : (db.bids.find? (fun b => b.auctionId == auctionId &&
        b.userId == userId && b.status == BidStatus.active)).isSome := by
      rw [List.find?_isSome]
      obtain ⟨b, hb, h1, h2, h3⟩ := hex
      exact ⟨b, hb, by simp [h1, h2, h3]⟩
    obtain ⟨b0, hb0⟩ := Option.isSome_iff_exists.mp hfound
    have htx : placeBidTx db auctionId userId amount newBidId now =
        .error .conflict := by
      simp only [placeBidTx, validateAmount]
      rw [if_neg hval, exceptBind_ok_left]
      simp only [hau]
      rw [if_neg (by simp [Auction.canAcceptBids, hactive] :
        ¬ (¬ auction.canAcceptBids = true))]
      simp only [hround]
      rw [if_neg hmin]
      simp only [huser, hb0]
    unfold placeBid placeBidWith
    rw [htx, exceptBind_error]
  · intro bid' db' hok
    unfold placeBid placeBidWith at hok
    rw [exceptBind_ok] at hok
    obtain ⟨⟨bid₀, db₁⟩, htx, hok⟩ := hok
    dsimp only at hok
    have hbids : db'.bids = db₁.bids := by
      cases has : antiSnipeStep auctionId now db₁ with
      | ok q =>
        obtain ⟨bb, db₃⟩ := q
        rw [has] at hok
        dsimp only at hok
        injection (Except.ok.inj hok) with h1 h2
        subst h2
        exact antiSnipeStep_bids has
      | error e =>
        rw [has] at hok
        dsimp only at hok
        injection (Except.ok.inj hok) with h1 h2
        subst h2
        rfl
    simp only [placeBidTx, validateAmount] at htx
    rw [if_neg hval, exceptBind_ok_left] at htx
    simp only [hau] at htx
    rw [if_neg (by simp [Auction.canAcceptBids, hactive] :
      ¬ (¬ auction.canAcceptBids = true))] at htx
    simp only [hround] at htx
    rw [if_neg hmin] at htx
    simp only [huser] at htx
    cases hguard : db.bids.find? (fun b => b.auctionId == auctionId &&
        b.userId == userId && b.status == BidStatus.active) with
    | some b0 =>
      rw [hguard] at htx
      dsimp only at htx
      exact absurd htx (fun hh => Except.noConfusion hh)
    | none =>
      rw [hguard] at htx
      dsimp only at htx
      split at htx
      · exact absurd htx (fun hh => Except.noConfusion hh)
      · rw [exceptBind_ok] at htx
        obtain ⟨user', hsave, htx⟩ := htx
        injection (Except.ok.inj htx) with h1 h2
        have hnone : ∀ b ∈ db.bids, ¬ (b.auctionId == auctionId &&
            b.userId == userId && b.status == BidStatus.active) = true := by
          intro b hb
          exact List.find?_eq_none.mp hguard b hb
        have hdb₁ : db₁.bids = db.bids ++ [{
            id := newBidId
            auctionId := auctionId
            userId := userId
            amount := amount
            originalAmount := amount
            createdInRound := round.roundNumber
            currentRound := round.roundNumber
            status := .active
            wonItemNumber := none
            wonInRound := none
            wonPosition := none
            history := [⟨.created, amount, round.roundNumber, now, none⟩]
            createdAt := now }] := by
          rw [← h2]
          rfl
        rw [hbids, hdb₁, List.filter_append]
        rw [List.filter_eq_nil_iff.mpr hnone]
        simp

/-- Counterexample to C3 as stated, reached purely through the modelled
services from an empty bid store: user 7 bids in round 1 of a two-round
auction and loses to user 8, so `completeRound` stores the bid as
`carried_over` with `currentRound = 2`; `startRound` on round 2 then runs
`carryOverBids`, whose query asks for `currentRound = 2 - 1 = 1` and so
never matches that bid — it stays `carried_over` while round 2 is
`active`. `placeBid` for user 7 now succeeds instead of failing with a
Conflict (its guard filters on `status: BID_STATUSES.ACTIVE` only), and
afterwards two bids for `(auction 1, user 7)` have status in
{active, carried_over}: the claimed uniqueness invariant fails in a
reachable state. -/
theorem c3_counterexample :
    (placeBid c3s0 1 7 100 1 10).isOk = true ∧
    (placeBid c3s1 1 8 200 2 20).isOk = true ∧
    (completeRound c3s2 1 3600001).isOk = true ∧
    (startRound c3s3 2 3600100).isOk = true ∧
    (c3s4.bids.filter (fun b => b.auctionId == 1 && b.userId == 7 &&
      b.status == BidStatus.carried_over)).length = 1 ∧
    (c3s4.rounds.filter (fun r => r.auctionId == 1 &&
      r.status == RoundStatus.active)).length = 1 ∧
    (placeBid c3s4 1 7 150 3 3600200).isOk = true ∧
    (c3s5.bids.filter (fun b => b.auctionId == 1 && b.userId == 7 &&
      (b.status == BidStatus.active ||
        b.status == BidStatus.carried_over))).length = 2 := by
  refine ⟨by decide, by decide, by decide, by decide, by decide, by decide,
    by decide, by decide⟩

/-- Witness for the amended C3: an existing `active` bid makes `placeBid`
fail with a Conflict. -/
theorem c3_place_bid_active_unique_witness :
    placeBid c3wdb 1 7 200 9 50 = .error .conflict := by
  have H := @c3_place_bid_active_unique c3wdb 1 7 9 200 50 c3auction
    c3round c3user rfl rfl rfl rfl (by decide) (by decide)
  exact H.1 ⟨c3wBid, by decide, by decide, by decide, by decide⟩

/-! ### Claim C10: anti-snipe failures never reach the bidder -/
/-- C10. When the `placeBid` transaction commits with bid `bid` and store
`db₁`, the call returns that bid for every behavior of the post-commit
anti-snipe body, including any failure: the catch inside
`RoundService.checkAntiSnipe` turns errors into `false`, so a failing
extension or rescheduling neither propagates to the bidder nor undoes the
committed state. -/
theorem c10_place_bid_antisnipe_isolated {db db₁ : DB} {aid uid nid : Nat}
    {amount : Rat} {now : Int} {bid : Bid}
    (raw : DB → Except Err (Bool × DB))
    (hcommit : placeBidTx db aid uid amount nid now = .ok (bid, db₁)) :
    (∃ db₂, placeBidWith db aid uid amount nid now raw = .ok (bid, db₂)) ∧
    (∀ e, raw db₁ = .error e →
      placeBidWith db aid uid amount nid now raw = .ok (bid, db₁)) := by
  constructor
  · unfold placeBidWith
    rw [hcommit, exceptBind_ok_left]
    dsimp only
    cases hr : raw db₁ with
    | ok q =>
      obtain ⟨bb, db₃⟩ := q
      exact ⟨db₃, rfl⟩
    | error e => exact ⟨db₁, rfl⟩
  · intro e he
    unfold placeBidWith
    rw [hcommit, exceptBind_ok_left]
    dsimp only
    rw [he]

/-- Witness for C10: with an anti-snipe body that always fails, the
committed bid is still returned and the committed store stands. -/
theorem c10_place_bid_antisnipe_isolated_witness :
    placeBidWith c3db 1 7 200 9 50 c10raw = .ok (c10bid, c10db1) := by
  have H := @c10_place_bid_antisnipe_isolated c3db c10db1 1 7 9 200 50
    c10bid c10raw (by rfl)
  exact H.2 .internal rfl

/-- C1, evaluated at the failing input: after the winner commit the user's
`balance` is still 500 — the source decrements only `reservedBalance`
(100 → 0) while incrementing `totalWins` and `totalSpent` — and the
`bid_won` transaction it writes fabricates `balanceBefore = 600`, i.e.
the code's own ledger record contradicts the unchanged balance. The claim
(and the repository's README winner-selection snippet, which reads
`user.balance -= bid.amount`) requires the balance to drop to 400. -/
theorem c1_winner_commit_balance_bug :
    (completeRound c1db 1 3700000).isOk = true ∧
    findUser c1db 10 = some ⟨10, 500, 100, 1, 0, 0⟩ ∧
    findUser c1db' 10 = some ⟨10, 500, 0, 1, 1, 100⟩ ∧
    c1db'.txs.map (fun t =>
      (t.type, t.amount, t.balanceBefore, t.balanceAfter)) =
      [(TxType.bid_won, 100, 600, 500)] := by
  refine ⟨by decide, by decide, by decide, by decide⟩

/-- C2, evaluated at the failing inputs: on both refund paths the source
runs `user.balance += bid.amount; user.reservedBalance -= bid.amount`, so
the cancelling user's balance jumps from 500 to 600 and the terminal-round
loser's balance jumps from 500 to 600 — the claim (and §4.2 of the spec:
funds were never spent, so only `reserved` shrinks) requires the balance
to stay at 500. Together with `placeBid`'s reservation (which leaves
`balance` untouched), the code mints 100 out of thin air. -/
theorem c2_refund_balance_bug :
    findUser c2db 20 = some ⟨20, 500, 100, 1, 0, 0⟩ ∧
    c2userAfter = some ⟨20, 600, 0, 1, 0, 0⟩ ∧
    findUser c2LoserDb 30 = some ⟨30, 500, 100, 1, 0, 0⟩ ∧
    (completeRound c2LoserDb 3 3700000).isOk = true ∧
    c2loserAfter = some ⟨30, 600, 0, 1, 0, 0⟩ := by
  refine ⟨by decide, by decide, by decide, by decide, by decide⟩

/-- C6, evaluated at the failing input: `cancelAuction` accepts an
`active` auction (the source rejects only `completed` and `cancelled`,
not `active`) and refunds nothing — the participant's reservation of 100
and the active bid survive the cancellation; the refund is an unresolved
`TODO` comment in the source. The claim requires cancellation only from
`scheduled`/`paused` and every reservation returned to 0. -/
theorem c6_cancel_auction_bug :
    c6auction.status = AuctionStatus.active ∧
    c6result = some (AuctionStatus.cancelled,
      some ⟨60, 500, 100, 1, 0, 0⟩, some c6bid) := by
  refine ⟨by decide, by decide⟩
